import Mathlib

/-!
Verification development for a CMS content-type library consisting of a
schema-to-validator builder (producing Zod validators) and an
entry-to-Markdown renderer. The TypeScript source is shallowly embedded:
plain JavaScript data is modelled by `Json`, the Zod validators produced by
`fieldToZod` are modelled by the `ZodSchema` grammar together with the
executable parser `zparse`, and the renderer functions keep their source
names (`entryToMarkdown`, `jsonRteToMarkdown`, ...).
-/

set_option maxHeartbeats 4000000
set_option maxRecDepth 20000

mutual
/-- Plain JavaScript/JSON data: entries, field values and rich-text trees.
Numbers are modelled as integers, which covers every value handled here. -/
inductive Json where
  | null : Json
  | bool : Bool → Json
  | num : Int → Json
  | str : String → Json
  | arr : JsonArr → Json
  | obj : JsonObj → Json
/-- A JSON array, as its own inductive so that all recursion stays structural. -/
inductive JsonArr where
  | nil : JsonArr
  | cons : Json → JsonArr → JsonArr
/-- A JSON object: an insertion-ordered association list, like a JS object. -/
inductive JsonObj where
  | nil : JsonObj
  | cons : String → Json → JsonObj → JsonObj
end

/-- Build a `JsonArr` from a list (convenience for concrete test data). -/
def jArr : List Json → JsonArr := fun l => l.foldr JsonArr.cons JsonArr.nil

/-- Build a `JsonObj` from a list of key/value pairs. -/
def jObj : List (String × Json) → JsonObj :=
  fun l => l.foldr (fun kv r => JsonObj.cons kv.1 kv.2 r) JsonObj.nil

/-- Build a `Json` object value from a list of key/value pairs. -/
def jO : List (String × Json) → Json := fun l => Json.obj (jObj l)

/-- Build a `Json` array value from a list. -/
def jA : List Json → Json := fun l => Json.arr (jArr l)

/-- Property lookup on a JS object (first occurrence wins; JS objects have
unique keys, so this is exact). `none` models `undefined`. -/
def lookupJ : JsonObj → String → Option Json
  | JsonObj.nil, _ => none
  | JsonObj.cons k v tl, key => if k = key then some v else lookupJ tl key

/-- Property access `value[k]` on an arbitrary value: only objects yield
properties here (models the source's `as Record<string, unknown>` casts). -/
def objGet : Json → String → Option Json
  | Json.obj kvs, k => lookupJ kvs k
  | _, _ => none

/-- JavaScript truthiness of a value. -/
def truthy : Json → Bool
  | Json.null => false
  | Json.bool b => b
  | Json.num n => n != 0
  | Json.str s => s != ""
  | Json.arr _ => true
  | Json.obj _ => true

/-- Truthiness of a possibly-absent value (`undefined` is falsy). -/
def truthyO : Option Json → Bool
  | none => false
  | some v => truthy v

mutual
/-- JavaScript `String(value)` coercion. -/
def jsToString : Json → String
  | Json.null => "null"
  | Json.bool b => if b then "true" else "false"
  | Json.num n => toString n
  | Json.str s => s
  | Json.arr l => jsArrJoin l
  | Json.obj _ => "[object Object]"
/-- `Array.prototype.toString`: elements joined by commas, null/undefined
rendering as the empty string. -/
def jsArrJoin : JsonArr → String
  | JsonArr.nil => ""
  | JsonArr.cons e JsonArr.nil => (match e with | Json.null => "" | _ => jsToString e)
  | JsonArr.cons e tl =>
      (match e with | Json.null => "" | _ => jsToString e) ++ "," ++ jsArrJoin tl
end

/-- String coercion where an absent (`undefined`) value prints as
`"undefined"` (as in a JS template literal). -/
def jsToStringU : Option Json → String
  | none => "undefined"
  | some v => jsToString v

/-- JavaScript `a || b` for an optional string-producing property: the first
operand is used when truthy, otherwise the default. -/
def jsOrStr : Option String → String → String
  | some s, d => if s = "" then d else s
  | none, d => d

/-- Does the second character list start with the first one? -/
def listLead : List Char → List Char → Bool
  | [], _ => true
  | _ :: _, [] => false
  | p :: ps, c :: cs => p = c && listLead ps cs

/-- `s.startsWith(pat)` (character-list implementation so that concrete
evaluation reduces in the kernel). -/
def jsStartsWith (s pat : String) : Bool := listLead pat.data s.data

/-- Does a character list contain the pattern as a contiguous sublist? -/
def listContainsSub : List Char → List Char → Bool
  | [], pat => pat.isEmpty
  | c :: tl, pat => listLead pat (c :: tl) || listContainsSub tl pat

/-- `s.includes(pat)`-style containment. -/
def strContainsSub (s pat : String) : Bool := listContainsSub s.data pat.data

/-- Strip leading and trailing whitespace from a character list. -/
def trimChars (l : List Char) : List Char :=
  ((l.dropWhile Char.isWhitespace).reverse.dropWhile Char.isWhitespace).reverse

/-- JS `s.trim()` (character-list implementation). -/
def strTrim (s : String) : String := String.mk (trimChars s.data)

/-- Split a character list at every occurrence of a character. -/
def splitCharAux : List Char → Char → List Char → List String
  | [], _, acc => [String.mk acc.reverse]
  | x :: tl, c, acc =>
      if x = c then String.mk acc.reverse :: splitCharAux tl c []
      else splitCharAux tl c (x :: acc)

/-- JS `s.split(c)` for a single-character separator. -/
def splitOnChar (s : String) (c : Char) : List String := splitCharAux s.data c []

/-- Length of a `JsonArr`. -/
def JsonArr.length : JsonArr → Nat
  | JsonArr.nil => 0
  | JsonArr.cons _ tl => 1 + tl.length

/-- Convert a `JsonArr` to a list (used to state membership in theorems). -/
def JsonArr.toList : JsonArr → List Json
  | JsonArr.nil => []
  | JsonArr.cons e tl => e :: tl.toList

/-- Keys of a `JsonObj`, in order. -/
def JsonObj.keys : JsonObj → List String
  | JsonObj.nil => []
  | JsonObj.cons k _ tl => k :: tl.keys

example : jsToString (jA [Json.num 1, Json.null, Json.str "x"]) = "1,,x" := by rfl
example : lookupJ (jObj [("a", Json.num 1), ("b", Json.num 2)]) "b" = some (Json.num 2) := by rfl

/-- Field metadata flags from `ContentstackFieldMetadata` (only the members
the source reads; the boolean flags model JS truthiness of possibly-absent
members, so an absent flag is `false`). -/
structure FieldMeta where
  description : Option String
  allow_rich_text : Bool
  allow_json_rte : Bool
  multiline : Bool

/-- Metadata with every member absent. -/
def fmNone : FieldMeta := FieldMeta.mk none false false false

/-- Metadata with only `allow_json_rte` set. -/
def fmJsonRte : FieldMeta := FieldMeta.mk none false true false

mutual
/-- A Contentstack field definition (`ContentstackField`). Components, in
order: `uid`, `data_type`, `display_name`, `mandatory`, `multiple`,
`enum` choice values (`enum?.choices`, value strings), child `schema`
(for groups; `undefined` and `[]` behave identically since the source
always reads it as `field.schema || []`), `blocks` definitions, metadata,
`format`, `startDate`, `endDate`, `max_instance`. -/
inductive ContentstackField where
  | mk : String → String → Option String → Bool → Bool → Option (List String) →
      FieldList → BlockList → FieldMeta → Option String → Option String →
      Option String → Option Nat → ContentstackField
/-- A list of field definitions (own inductive to keep recursion structural). -/
inductive FieldList where
  | nil : FieldList
  | cons : ContentstackField → FieldList → FieldList
/-- A block definition of a modular-blocks field (`ContentstackBlock`):
`uid`, `title`, `reference_to`, child `schema`. -/
inductive ContentstackBlock where
  | mk : String → Option String → Option String → FieldList → ContentstackBlock
/-- A list of block definitions. -/
inductive BlockList where
  | nil : BlockList
  | cons : ContentstackBlock → BlockList → BlockList
end

def ContentstackField.uid : ContentstackField → String
  | .mk u _ _ _ _ _ _ _ _ _ _ _ _ => u

def ContentstackField.data_type : ContentstackField → String
  | .mk _ d _ _ _ _ _ _ _ _ _ _ _ => d

def ContentstackField.display_name : ContentstackField → Option String
  | .mk _ _ dn _ _ _ _ _ _ _ _ _ _ => dn

def ContentstackField.mandatory : ContentstackField → Bool
  | .mk _ _ _ m _ _ _ _ _ _ _ _ _ => m

def ContentstackField.multiple : ContentstackField → Bool
  | .mk _ _ _ _ m _ _ _ _ _ _ _ _ => m

def ContentstackField.enumChoices : ContentstackField → Option (List String)
  | .mk _ _ _ _ _ e _ _ _ _ _ _ _ => e

def ContentstackField.schemaF : ContentstackField → FieldList
  | .mk _ _ _ _ _ _ s _ _ _ _ _ _ => s

def ContentstackField.blocksF : ContentstackField → BlockList
  | .mk _ _ _ _ _ _ _ b _ _ _ _ _ => b

def ContentstackField.fm : ContentstackField → FieldMeta
  | .mk _ _ _ _ _ _ _ _ m _ _ _ _ => m

def ContentstackField.format : ContentstackField → Option String
  | .mk _ _ _ _ _ _ _ _ _ f _ _ _ => f

def ContentstackField.startDate : ContentstackField → Option String
  | .mk _ _ _ _ _ _ _ _ _ _ s _ _ => s

def ContentstackField.endDate : ContentstackField → Option String
  | .mk _ _ _ _ _ _ _ _ _ _ _ e _ => e

def ContentstackField.max_instance : ContentstackField → Option Nat
  | .mk _ _ _ _ _ _ _ _ _ _ _ _ m => m

def ContentstackBlock.uid : ContentstackBlock → String
  | .mk u _ _ _ => u

def ContentstackBlock.title : ContentstackBlock → Option String
  | .mk _ t _ _ => t

def ContentstackBlock.reference_to : ContentstackBlock → Option String
  | .mk _ _ r _ => r

def ContentstackBlock.schemaF : ContentstackBlock → FieldList
  | .mk _ _ _ s => s

/-- Convert a `FieldList` to a list (for stating theorems). -/
def FieldList.toList : FieldList → List ContentstackField
  | FieldList.nil => []
  | FieldList.cons f tl => f :: tl.toList

/-- Convert a `BlockList` to a list (for stating theorems). -/
def BlockList.toList : BlockList → List ContentstackBlock
  | BlockList.nil => []
  | BlockList.cons b tl => b :: tl.toList

/-- Build a `FieldList` from a list. -/
def fL : List ContentstackField → FieldList := fun l => l.foldr FieldList.cons FieldList.nil

/-- Build a `BlockList` from a list. -/
def bL : List ContentstackBlock → BlockList := fun l => l.foldr BlockList.cons BlockList.nil

/-- The uids of a field list, in order. -/
def FieldList.uids : FieldList → List String
  | FieldList.nil => []
  | FieldList.cons f tl => f.uid :: tl.uids

/-- A Contentstack content type (`ContentstackContentType`): `uid`, `title`
and the ordered field `schema`. -/
structure ContentstackContentType where
  ctUid : Option String
  ctTitle : Option String
  schema : FieldList

/-- Schema-generation options (`SchemaOptions`): the optional `mode` member,
`"read"` (default) or `"upsert"`. -/
structure SchemaOptions where
  mode : Option String

/-- The default (absent) `SchemaOptions`, as passed by `validateEntry` /
`validateDraft`, which call the builders without options. -/
def defaultSchemaOpts : SchemaOptions := SchemaOptions.mk none

/-- Shorthand for a primitive field with a given uid, data type, display
name and mandatory flag (all other members absent). -/
def mkPrim (u dt : String) (dn : Option String) (m : Bool) : ContentstackField :=
  ContentstackField.mk u dt dn m false none FieldList.nil BlockList.nil fmNone none none none none

mutual
/-- The grammar of Zod validators that `fieldToZod` can produce, shallowly
embedded. String refinements (`z.string().min(1)`, `.regex`, the isodate
refinements) are `zrefineStr` with an explicit predicate; the lazy,
self-referential `JsonRteNodeSchema` is the primitive `zrteNode` (its
recursion runs over the value, see `isRteNode`). -/
inductive ZodSchema where
  | zstring : ZodSchema
  | znumber : ZodSchema
  | zboolean : ZodSchema
  | zany : ZodSchema
  | zliteral : String → ZodSchema
  | zenum : List String → ZodSchema
  | zrefineStr : (String → Bool) → ZodSchema
  | zrteNode : ZodSchema
  | zrecordAny : ZodSchema
  | zoptional : ZodSchema → ZodSchema
  | znullable : ZodSchema → ZodSchema
  | zarray : ZodSchema → Option Nat → ZodSchema
  | zobject : ZodShape → Bool → ZodSchema
  | zunion : ZodList → ZodSchema
/-- An object shape: ordered keys with their member validators. The `Bool`
on `zobject` is `true` for `.passthrough()` (a loose object), `false` for
the default strip mode. -/
inductive ZodShape where
  | nil : ZodShape
  | cons : String → ZodSchema → ZodShape → ZodShape
inductive ZodList where
  | nil : ZodList
  | cons : ZodSchema → ZodList → ZodList
end

/-- Does a shape declare a given key? -/
def shapeHasKey : ZodShape → String → Bool
  | ZodShape.nil, _ => false
  | ZodShape.cons k _ tl, key => k = key || shapeHasKey tl key

/-- `shape[k] = s` on a JS object literal: replace the value in place when
the key exists (keeping its position), otherwise append. -/
def shapeSet : ZodShape → String → ZodSchema → ZodShape
  | ZodShape.nil, key, s => ZodShape.cons key s ZodShape.nil
  | ZodShape.cons k v tl, key, s =>
      if k = key then ZodShape.cons k s tl else ZodShape.cons k v (shapeSet tl key s)

/-- Wrap every member of a shape in `zoptional`: the effect of Zod's
`.partial()` on an object schema. -/
def shapeAllOpt : ZodShape → ZodShape
  | ZodShape.nil => ZodShape.nil
  | ZodShape.cons k s tl => ZodShape.cons k (ZodSchema.zoptional s) (shapeAllOpt tl)

mutual
/-- `JsonRteNodeSchema` membership: a loose object with optional `type`,
`text`, `uid` (strings), optional `attrs` (a record) and optional
`children` (an array of nodes), extra members passing through. Non-objects
are rejected; a declared member present with the wrong type is rejected. -/
def isRteNode : Json → Bool
  | Json.obj kvs => rteObjOk kvs
  | _ => false
/-- Per-member check for `isRteNode`, walking the object spine. -/
def rteObjOk : JsonObj → Bool
  | JsonObj.nil => true
  | JsonObj.cons k v tl =>
      (if k = "type" ∨ k = "text" ∨ k = "uid" then
        (match v with | Json.str _ => true | _ => false)
      else if k = "attrs" then
        (match v with | Json.obj _ => true | _ => false)
      else if k = "children" then
        (match v with | Json.arr l => isRteArr l | _ => false)
      else true) && rteObjOk tl
/-- All elements of an array are rich-text nodes. -/
def isRteArr : JsonArr → Bool
  | JsonArr.nil => true
  | JsonArr.cons e tl => isRteNode e && isRteArr tl
end

/-- Append two JS objects (used for passthrough output: declared members
first, then the unknown input members). -/
def objAppend : JsonObj → JsonObj → JsonObj
  | JsonObj.nil, r => r
  | JsonObj.cons k v tl, r => JsonObj.cons k v (objAppend tl r)

/-- The members of an object whose keys the shape does not declare
(the passthrough remainder). -/
def objWithoutKeys : JsonObj → ZodShape → JsonObj
  | JsonObj.nil, _ => JsonObj.nil
  | JsonObj.cons k v tl, shape =>
      if shapeHasKey shape k then objWithoutKeys tl shape
      else JsonObj.cons k v (objWithoutKeys tl shape)

/-- Run an element parser over every array element, collecting the outputs
(failure of any element fails the array). -/
def zparseArrWith (p : Json → Option (Option Json)) : JsonArr → Option JsonArr
  | JsonArr.nil => some JsonArr.nil
  | JsonArr.cons e tl =>
      (match p e, zparseArrWith p tl with
       | some (some w), some out => some (JsonArr.cons w out)
       | some none, some out => some out
       | _, _ => none)

mutual
/-- Zod `safeParse`, over the schema grammar. The input `Option Json` models
a possibly-`undefined` value; the result is `none` on failure and
`some out` on success, where `out : Option Json` is the (possibly
`undefined`) parsed output. -/
def zparse : ZodSchema → Option Json → Option (Option Json)
  | ZodSchema.zstring, some (Json.str s) => some (some (Json.str s))
  | ZodSchema.zstring, _ => none
  | ZodSchema.znumber, some (Json.num n) => some (some (Json.num n))
  | ZodSchema.znumber, _ => none
  | ZodSchema.zboolean, some (Json.bool b) => some (some (Json.bool b))
  | ZodSchema.zboolean, _ => none
  | ZodSchema.zany, v => some v
  | ZodSchema.zliteral lit, some (Json.str s) =>
      if s = lit then some (some (Json.str s)) else none
  | ZodSchema.zliteral _, _ => none
  | ZodSchema.zenum vals, some (Json.str s) =>
      if vals.contains s then some (some (Json.str s)) else none
  | ZodSchema.zenum _, _ => none
  | ZodSchema.zrefineStr p, some (Json.str s) =>
      if p s then some (some (Json.str s)) else none
  | ZodSchema.zrefineStr _, _ => none
  | ZodSchema.zrteNode, some v => if isRteNode v then some (some v) else none
  | ZodSchema.zrteNode, none => none
  | ZodSchema.zrecordAny, some (Json.obj kvs) => some (some (Json.obj kvs))
  | ZodSchema.zrecordAny, _ => none
  | ZodSchema.zoptional _, none => some none
  | ZodSchema.zoptional s, some v => zparse s (some v)
  | ZodSchema.znullable _, some Json.null => some (some Json.null)
  | ZodSchema.znullable s, v => zparse s v
  | ZodSchema.zarray s maxI, some (Json.arr elems) =>
      (match zparseArrWith (fun e => zparse s (some e)) elems with
       | none => none
       | some out =>
         (match maxI with
          | some m => if elems.length ≤ m then some (some (Json.arr out)) else none
          | none => some (some (Json.arr out))))
  | ZodSchema.zarray _ _, _ => none
  | ZodSchema.zobject shape pass, some (Json.obj kvs) =>
      (match zparseShape shape kvs with
       | none => none
       | some processed =>
         if pass then some (some (Json.obj (objAppend processed (objWithoutKeys kvs shape))))
         else some (some (Json.obj processed)))
  | ZodSchema.zobject _ _, _ => none
  | ZodSchema.zunion ss, v => zparseUnion ss v
/-- Parse an object against a shape: each declared key is looked up (absent
gives `undefined`) and parsed; a key whose parse yields `undefined` is
omitted from the output, like Zod omits absent optional keys. -/
def zparseShape : ZodShape → JsonObj → Option JsonObj
  | ZodShape.nil, _ => some JsonObj.nil
  | ZodShape.cons k s tl, kvs =>
      (match zparse s (lookupJ kvs k), zparseShape tl kvs with
       | some r, some rest =>
           some (match r with
                 | some w => JsonObj.cons k w rest
                 | none => rest)
       | _, _ => none)
/-- Try union branches in order; acceptance when any branch accepts. -/
def zparseUnion : ZodList → Option Json → Option (Option Json)
  | ZodList.nil, _ => none
  | ZodList.cons s tl, v =>
      (match zparse s v with
       | some r => some r
       | none => zparseUnion tl v)
end

/-- Truthiness of an optional string member (`field.format`, `field.startDate`,
`block.reference_to`, ...): present and non-empty. -/
def optStrTruthy : Option String → Bool
  | some s => s ≠ ""
  | none => false

/-- Tail of the source's isodate regex after the seconds: optional `.mmm`
(exactly three digits) then an optional `Z`. -/
def isoFracTail : List Char → Bool
  | [] => true
  | ['Z'] => true
  | '.' :: a :: b :: c :: rest =>
      a.isDigit && b.isDigit && c.isDigit && (rest = [] || rest = ['Z'])
  | _ => false

/-- The source's full-timestamp regex
`^\d{4}-\d{2}-\d{2}T\d{2}:\d{2}:\d{2}(\.\d{3})?Z?$`. -/
def isoDatetimeRe (s : String) : Bool :=
  match s.data with
  | y1 :: y2 :: y3 :: y4 :: '-' :: m1 :: m2 :: '-' :: d1 :: d2 :: 'T' ::
      h1 :: h2 :: ':' :: i1 :: i2 :: ':' :: s1 :: s2 :: rest =>
      y1.isDigit && y2.isDigit && y3.isDigit && y4.isDigit && m1.isDigit &&
      m2.isDigit && d1.isDigit && d2.isDigit && h1.isDigit && h2.isDigit &&
      i1.isDigit && i2.isDigit && s1.isDigit && s2.isDigit && isoFracTail rest
  | _ => false

/-- The source's date-only regex `^\d{4}-\d{2}-\d{2}$`. -/
def isoDateOnlyRe (s : String) : Bool :=
  match s.data with
  | [y1, y2, y3, y4, h1, m1, m2, h2, d1, d2] =>
      y1.isDigit && y2.isDigit && y3.isDigit && y4.isDigit && h1 = '-' &&
      m1.isDigit && m2.isDigit && h2 = '-' && d1.isDigit && d2.isDigit
  | _ => false

/-- The refinement of `createDatetimeSchema`: full timestamp or date-only. -/
def isoDatePred (s : String) : Bool := isoDatetimeRe s || isoDateOnlyRe s

/-- Zod v3 `z.string().datetime()` (UTC-only ISO 8601 with required `Z` and
an optional fractional part of any precision). -/
def zodDatetimeTail : List Char → Bool
  | ['Z'] => true
  | '.' :: rest =>
      (match rest.dropWhile (fun c => c.isDigit) with
       | ['Z'] => decide (0 < (rest.takeWhile (fun c => c.isDigit)).length)
       | _ => false)
  | _ => false

/-- Zod v3 `z.string().datetime()` acceptance. -/
def zodDatetimeRe (s : String) : Bool :=
  match s.data with
  | y1 :: y2 :: y3 :: y4 :: '-' :: m1 :: m2 :: '-' :: d1 :: d2 :: 'T' ::
      h1 :: h2 :: ':' :: i1 :: i2 :: ':' :: s1 :: s2 :: rest =>
      y1.isDigit && y2.isDigit && y3.isDigit && y4.isDigit && m1.isDigit &&
      m2.isDigit && d1.isDigit && d2.isDigit && h1.isDigit && h2.isDigit &&
      i1.isDigit && i2.isDigit && s1.isDigit && s2.isDigit && zodDatetimeTail rest
  | _ => false

/-- Parse up to `n` leading digits into a number (helper for `dateKey`). -/
def digitsVal : List Char → Nat → Option (Nat × List Char)
  | l, 0 => some (0, l)
  | c :: l, n + 1 =>
      if c.isDigit then
        (match digitsVal l n with
         | some (v, rest) => some ((c.toNat - 48) * 10 ^ n + v, rest)
         | none => none)
      else none
  | [], _ + 1 => none

/-- A monotone key for comparing ISO date / datetime strings, modelling the
ordering `new Date(a) < new Date(b)` of the JS `Date` values the ranged
isodate refinement compares; `none` models an invalid date (`NaN`), whose
comparisons are all false. -/
def dateKey (s : String) : Option Nat :=
  match digitsVal s.data 4 with
  | some (y, '-' :: r1) =>
      (match digitsVal r1 2 with
       | some (mo, '-' :: r2) =>
         (match digitsVal r2 2 with
          | some (d, r3) =>
            (match r3 with
             | [] => some ((((y * 13 + mo) * 32 + d) * 25) * 3700)
             | 'T' :: r4 =>
               (match digitsVal r4 2 with
                | some (h, ':' :: r5) =>
                  (match digitsVal r5 2 with
                   | some (mi, ':' :: r6) =>
                     (match digitsVal r6 2 with
                      | some (se, _) =>
                          some (((((y * 13 + mo) * 32 + d) * 25 + h) * 61 + mi) * 61 + se)
                      | _ => none)
                   | _ => none)
                | _ => none)
             | _ => none)
          | _ => none)
       | _ => none)
  | _ => none

/-- The ranged isodate refinement: `new Date(val)` must not lie before the
start bound nor after the end bound (comparisons against an invalid bound
are false, so an unparseable bound imposes nothing, as with `NaN`). -/
def dateRangeOk (sd ed : Option String) (val : String) : Bool :=
  let kv := dateKey val
  let startOk :=
    if optStrTruthy sd then
      (match sd, kv with
       | some s, some k => !(decide (k < (dateKey s).getD 0) && (dateKey s).isSome)
       | _, _ => true)
    else true
  let endOk :=
    if optStrTruthy ed then
      (match ed, kv with
       | some e, some k => !(decide ((dateKey e).getD (k + 1) < k) && (dateKey e).isSome)
       | _, _ => true)
    else true
  startOk && endOk

/-- Model of `RegExp.prototype.test` for the patterns fed to `.regex`: exact
for patterns without metacharacters (treated as literal substring search);
no format-constrained field is exercised by the claims. In this model a
pattern never fails to compile, so the source's catch-and-skip branch for
invalid patterns is unreachable. -/
def regexTest (pat : String) (s : String) : Bool :=
  if pat = "" then true else strContainsSub s pat

/-- `const UID = z.string().min(1)`. -/
def zUID : ZodSchema := ZodSchema.zrefineStr (fun s => decide (1 ≤ s.length))

/-- `AssetSchema`: loose object with `uid` (non-empty) and optional `url`. -/
def AssetSchema : ZodSchema :=
  ZodSchema.zobject
    (ZodShape.cons "uid" zUID
      (ZodShape.cons "url" (ZodSchema.zoptional ZodSchema.zstring) ZodShape.nil)) true

/-- `ReferenceSchema`: loose object with `uid` (non-empty) and optional
`_content_type_uid`. -/
def ReferenceSchema : ZodSchema :=
  ZodSchema.zobject
    (ZodShape.cons "uid" zUID
      (ZodShape.cons "_content_type_uid" (ZodSchema.zoptional ZodSchema.zstring) ZodShape.nil)) true

/-- `LinkSchema`: passthrough object with optional `title` and `href`. -/
def LinkSchema : ZodSchema :=
  ZodSchema.zobject
    (ZodShape.cons "title" (ZodSchema.zoptional ZodSchema.zstring)
      (ZodShape.cons "href" (ZodSchema.zoptional ZodSchema.zstring) ZodShape.nil)) true

/-- `IsoDateSchema = createDatetimeSchema()`. -/
def IsoDateSchema : ZodSchema := ZodSchema.zrefineStr isoDatePred

/-- `TaxonomySchema`: an array of strict `{taxonomy_uid, term_uid}` objects. -/
def TaxonomySchema : ZodSchema :=
  ZodSchema.zarray
    (ZodSchema.zobject
      (ZodShape.cons "taxonomy_uid" ZodSchema.zstring
        (ZodShape.cons "term_uid" ZodSchema.zstring ZodShape.nil)) false) none

/-- `JsonRteSchema`: passthrough object with literal `type: "doc"`, optional
`uid` and `attrs`, and a required array of rich-text nodes as `children`. -/
def JsonRteSchema : ZodSchema :=
  ZodSchema.zobject
    (ZodShape.cons "type" (ZodSchema.zliteral "doc")
      (ZodShape.cons "uid" (ZodSchema.zoptional ZodSchema.zstring)
        (ZodShape.cons "attrs" (ZodSchema.zoptional ZodSchema.zrecordAny)
          (ZodShape.cons "children" (ZodSchema.zarray ZodSchema.zrteNode none) ZodShape.nil)))) true

/-- The optional `_metadata` member schema added for multiple groups and for
block payloads. -/
def metadataZ : ZodSchema :=
  ZodSchema.zoptional
    (ZodSchema.zobject (ZodShape.cons "uid" (ZodSchema.zoptional ZodSchema.zstring) ZodShape.nil) true)

mutual
/-- `fieldToZod(field, options)`: converts one field definition to its Zod
validator. The field is destructured up front (component order as in
`ContentstackField.mk`) so that the recursion into the child schema stays
structural. The final `.describe(...)` of the source is metadata only and
does not affect parsing, so it has no counterpart here. -/
def fieldToZod : ContentstackField → SchemaOptions → ZodSchema
  | ContentstackField.mk _uid dt _dn mand mult enumC schemaF blocksF fm fmt sd ed maxI, options =>
    let isUpsertMode := options.mode = some "upsert"
    let base : ZodSchema :=
      match dt with
      | "text" =>
          if fm.allow_rich_text then ZodSchema.zstring
          else
            (match enumC with
             | some (c :: cs) => ZodSchema.zenum (c :: cs)
             | _ =>
               (match fmt with
                | some f =>
                    if f = "" then ZodSchema.zstring else ZodSchema.zrefineStr (regexTest f)
                | none => ZodSchema.zstring))
      | "number" => ZodSchema.znumber
      | "boolean" => ZodSchema.zboolean
      | "isodate" =>
          if optStrTruthy sd || optStrTruthy ed then
            ZodSchema.zrefineStr (fun v => zodDatetimeRe v && dateRangeOk sd ed v)
          else IsoDateSchema
      | "json" => if fm.allow_json_rte then JsonRteSchema else ZodSchema.zany
      | "file" => if isUpsertMode then ZodSchema.zstring else AssetSchema
      | "link" => LinkSchema
      | "reference" => ReferenceSchema
      | "global_field" => ReferenceSchema
      | "taxonomy" => TaxonomySchema
      | "group" =>
          let groupShape :=
            if mult then shapeSet (shapeOfFields ZodShape.nil schemaF options) "_metadata" metadataZ
            else shapeOfFields ZodShape.nil schemaF options
          let objSchema := ZodSchema.zobject groupShape true
          if mult then
            (match maxI with
             | some m =>
                 if 0 < m then ZodSchema.zarray objSchema (some m)
                 else ZodSchema.zarray objSchema none
             | none => ZodSchema.zarray objSchema none)
          else objSchema
      | "blocks" =>
          (match blocksToZodList blocksF options with
           | ZodList.nil => ZodSchema.zarray ZodSchema.zany none
           | ZodList.cons b ZodList.nil => ZodSchema.zarray b none
           | l => ZodSchema.zarray (ZodSchema.zunion l) none)
      | _ => ZodSchema.zany
    let wrapped :=
      if mult && dt ≠ "group" && dt ≠ "blocks" then ZodSchema.zarray base none
      else base
    if mand then wrapped else ZodSchema.zoptional (ZodSchema.znullable wrapped)
/-- Build an object shape by assigning `shape[subField.uid] = fieldToZod(...)`
for each field in declaration order (JS assignment semantics via `shapeSet`). -/
def shapeOfFields (acc : ZodShape) : FieldList → SchemaOptions → ZodShape
  | FieldList.nil, _ => acc
  | FieldList.cons f tl, options =>
      shapeOfFields (shapeSet acc f.uid (fieldToZod f options)) tl options
/-- The per-variant schemas of a blocks field, in declaration order. -/
def blocksToZodList : BlockList → SchemaOptions → ZodList
  | BlockList.nil, _ => ZodList.nil
  | BlockList.cons b tl, options => ZodList.cons (blockToZod b options) (blocksToZodList tl options)
/-- One block variant: a passthrough object whose single declared key is the
block uid; a reference block's payload is a Reference shape, otherwise the
payload is the block's own schema plus an optional `_metadata`. -/
def blockToZod : ContentstackBlock → SchemaOptions → ZodSchema
  | ContentstackBlock.mk buid _btitle brefTo bschema, options =>
    if optStrTruthy brefTo then
      ZodSchema.zobject (ZodShape.cons buid ReferenceSchema ZodShape.nil) true
    else
      let blockShape := shapeSet (shapeOfFields ZodShape.nil bschema options) "_metadata" metadataZ
      ZodSchema.zobject
        (ZodShape.cons buid (ZodSchema.zobject blockShape true) ZodShape.nil) true
end

/-- `contentTypeToZod(contentType, options)`: a strict-by-default object over
the per-field validators. The source throws on a content type without a
schema list; that malformed input is unrepresentable here (`schema` is a
required component of `ContentstackContentType`). -/
def contentTypeToZod (contentType : ContentstackContentType) (options : SchemaOptions) : ZodSchema :=
  ZodSchema.zobject (shapeOfFields ZodShape.nil contentType.schema options) false

/-- Zod's `.partial()` on an object schema: every top-level member becomes
optional; other schemas are unchanged. -/
def zodObjectDraft : ZodSchema → ZodSchema
  | ZodSchema.zobject shape pass => ZodSchema.zobject (shapeAllOpt shape) pass
  | s => s

/-- `contentTypeToDraftZod = contentTypeToZod(...).partial()`. -/
def contentTypeToDraftZod (contentType : ContentstackContentType) (options : SchemaOptions) : ZodSchema :=
  zodObjectDraft (contentTypeToZod contentType options)

/-- `validateEntry(contentType, entry)`: build the full validator (without
options) and `safeParse` the entry; `some out` models `{success: true}`. -/
def validateEntry (contentType : ContentstackContentType) (entry : Json) : Option (Option Json) :=
  zparse (contentTypeToZod contentType defaultSchemaOpts) (some entry)

/-- `validateDraft(contentType, entry)`: as `validateEntry`, against the
draft (partial) schema. -/
def validateDraft (contentType : ContentstackContentType) (entry : Json) : Option (Option Json) :=
  zparse (contentTypeToDraftZod contentType defaultSchemaOpts) (some entry)

/-- `SYSTEM_FIELDS`: field uids excluded from markdown output by default. -/
def SYSTEM_FIELDS : List String :=
  ["uid", "locale", "created_at", "updated_at", "created_by", "updated_by",
   "ACL", "_version", "_in_progress", "_embedded_items", "publish_details",
   "_metadata", "tags"]

/-- The resolved markdown options (`Required<MarkdownOptions>`): the source
merges user options over `DEFAULT_OPTIONS` on entry; the embedding takes
the merged record. -/
structure MdOptions where
  headingLevel : Nat
  formatDate : String → String
  formatNumber : Int → String
  skipEmpty : Bool
  includeSystemFields : Bool
  useTables : Bool
  titleField : String
  descriptionField : String

/-- English month names (for the default date formatter). -/
def monthName : Nat → String
  | 1 => "January"
  | 2 => "February"
  | 3 => "March"
  | 4 => "April"
  | 5 => "May"
  | 6 => "June"
  | 7 => "July"
  | 8 => "August"
  | 9 => "September"
  | 10 => "October"
  | 11 => "November"
  | 12 => "December"
  | _ => ""

/-- Gregorian leap year. -/
def isLeapYear (y : Nat) : Bool := y % 4 = 0 && (y % 100 ≠ 0 || y % 400 = 0)

/-- Days in a month (for `Date` validity). -/
def daysInMonth (y m : Nat) : Nat :=
  if m = 2 then (if isLeapYear y then 29 else 28)
  else if m = 4 ∨ m = 6 ∨ m = 9 ∨ m = 11 then 30
  else 31

/-- `formatDateHuman(isoDate)`: `new Date` + `toLocaleDateString("en-US",
{year, month: long, day})`, modelled for ISO `YYYY-MM-DD` dates and
`YYYY-MM-DD T...` timestamps (interpreted in UTC, as the tests expect); any
other input — which `new Date` would reject as Invalid Date, or which lies
outside the ISO subset modelled here — is returned unchanged. -/
def formatDateHuman (isoDate : String) : String :=
  let dateChars := isoDate.data.takeWhile (fun c => c ≠ 'T')
  match digitsVal dateChars 4 with
  | some (y, '-' :: r1) =>
      (match digitsVal r1 2 with
       | some (m, '-' :: r2) =>
         (match digitsVal r2 2 with
          | some (d, []) =>
              if 1 ≤ m && m ≤ 12 && 1 ≤ d && d ≤ daysInMonth y m then
                monthName m ++ " " ++ toString d ++ ", " ++ toString y
              else isoDate
          | _ => isoDate)
       | _ => isoDate)
  | _ => isoDate

/-- Insert thousands separators into a reversed digit list. -/
def commasRev : List Char → Nat → List Char
  | [], _ => []
  | c :: tl, i =>
      if (i + 1) % 3 = 0 && tl ≠ [] then c :: ',' :: commasRev tl (i + 1)
      else c :: commasRev tl (i + 1)

/-- `num.toLocaleString("en-US")` for integers: thousands-grouped decimal. -/
def toLocaleStringEnUS (num : Int) : String :=
  (if num < 0 then "-" else "") ++
    String.mk (((Nat.repr num.natAbs).data.reverse |> (commasRev · 0)).reverse)

/-- `(num / unit).toFixed(1).replace(/\.0$/, "")` for `0 < unit ≤ num`:
one-decimal rounding (round-half-up, exact for the dyadic quotients the
source exercises) with a trailing `.0` dropped. -/
def toFixed1DropZero (num unit : Nat) : String :=
  let t := (10 * num + unit / 2) / unit
  if t % 10 = 0 then Nat.repr (t / 10)
  else Nat.repr (t / 10) ++ "." ++ Nat.repr (t % 10)

/-- `formatNumberWithCommas(num)`: billions and millions abbreviated to one
decimal with a unit letter, everything below thousands-grouped. -/
def formatNumberWithCommas (num : Int) : String :=
  if 1000000000 ≤ num then toFixed1DropZero num.toNat 1000000000 ++ "B"
  else if 1000000 ≤ num then toFixed1DropZero num.toNat 1000000 ++ "M"
  else toLocaleStringEnUS num

/-- `isEmpty(value)`: null/undefined, blank string, or empty array. -/
def isEmpty : Option Json → Bool
  | none => true
  | some Json.null => true
  | some (Json.str s) => strTrim s = ""
  | some (Json.arr JsonArr.nil) => true
  | some _ => false

/-- `isImageAsset(asset)`: a truthy string `content_type` starting with
`image/` (a truthy non-string `content_type` would throw in JS and is not
modelled). -/
def isImageAsset (asset : Json) : Bool :=
  match objGet asset "content_type" with
  | some (Json.str s) => if s = "" then false else jsStartsWith s ("image/")
  | _ => false

/-- `hasNestedGroups(schema)`: some field is a group or blocks field. -/
def hasNestedGroups : FieldList → Bool
  | FieldList.nil => false
  | FieldList.cons f tl =>
      (f.data_type = "group" || f.data_type = "blocks") || hasNestedGroups tl

/-- `s.repeat(n)`. -/
def strRepeat (s : String) : Nat → String
  | 0 => ""
  | n + 1 => s ++ strRepeat s n

/-- `heading(text, level)`: `#` markers clamped to 1..6, a space, the text. -/
def heading (text : String) (level : Nat) : String :=
  strRepeat ("#") (min (max level 1) 6) ++ " " ++ text

/-- Character-wise body of `escapeTableCell` (the two global replacements
touch disjoint characters, so a single pass is exact). -/
def escapeCellChars : List Char → List Char
  | [] => []
  | '|' :: tl => '\\' :: '|' :: escapeCellChars tl
  | '\n' :: tl => ' ' :: escapeCellChars tl
  | c :: tl => c :: escapeCellChars tl

/-- `escapeTableCell(text)`: escape pipes, newlines become spaces. -/
def escapeTableCell (text : String) : String := String.mk (escapeCellChars text.data)

/-- The label of a field: `field.display_name || field.uid`. -/
def labelOf (f : ContentstackField) : String := jsOrStr f.display_name f.uid

example : formatDateHuman ("2012-03-16") = "March 16, 2012" := by rfl
example : formatDateHuman ("1973-04-24") = "April 24, 1973" := by rfl
example : formatDateHuman ("2012-03-16T00:00:00.000Z") = "March 16, 2012" := by rfl
example : formatDateHuman ("invalid") = "invalid" := by rfl
example : formatNumberWithCommas 15921 = "15,921" := by rfl
example : heading ("T") 9 = "###### T" := by rfl

/-- `node.type` when it is a string (a non-string `type` matches no switch
case, like `switch` on a non-string in JS). -/
def nodeTypeOf (kvs : JsonObj) : Option String :=
  match lookupJ kvs "type" with
  | some (Json.str t) => some t
  | _ => none

/-- Is this child a table row (`c.type === "tr" || c.type === "row"`)? -/
def nodeTypeIsRow (kvs : JsonObj) : Bool :=
  match nodeTypeOf kvs with
  | some t => t = "tr" || t = "row"
  | none => false

/-- `node.attrs?.k`: the attribute value when `attrs` is an object. -/
def attrOf (kvs : JsonObj) (k : String) : Option Json :=
  match lookupJ kvs "attrs" with
  | some (Json.obj akvs) => lookupJ akvs k
  | _ => none

/-- A `a || b || ... || d` chain over raw values with final string coercion
(the coercion happens at template-literal interpolation in the source). -/
def firstTruthyStrD : List (Option Json) → String → String
  | [], d => d
  | x :: tl, d => if truthyO x then jsToStringU x else firstTruthyStrD tl d

/-- Truthiness of `node.k`. -/
def truthyKey (kvs : JsonObj) (k : String) : Bool := truthyO (lookupJ kvs k)

mutual
/-- `jsonRteToMarkdown(node)`: JSON RTE to markdown. A falsy node gives "";
a text leaf gets the inline marks applied in source order (bold, italic,
underline, strikethrough, code, superscript, subscript); a container
renders its children and applies the per-type template. A truthy non-object
node has no `text`, no `children` and no `type`, so it falls through the
default case to "" as in JS. -/
def jsonRteToMarkdown (node : Json) : String :=
  match node with
  | Json.obj kvs =>
      (match lookupJ kvs "text" with
       | some (Json.str t0) =>
           let t1 := if truthyKey kvs "bold" then "**" ++ t0 ++ "**" else t0
           let t2 := if truthyKey kvs "italic" then "*" ++ t1 ++ "*" else t1
           let t3 := if truthyKey kvs "underline" then "<u>" ++ t2 ++ "</u>" else t2
           let t4 := if truthyKey kvs "strikethrough" then "~~" ++ t3 ++ "~~" else t3
           let t5 := if truthyKey kvs "code" then "`" ++ t4 ++ "`" else t4
           let t6 := if truthyKey kvs "superscript" then "<sup>" ++ t5 ++ "</sup>" else t5
           let t7 := if truthyKey kvs "subscript" then "<sub>" ++ t6 ++ "</sub>" else t6
           t7
       | _ =>
           let childContent := rteChildrenOf kvs
           (match nodeTypeOf kvs with
            | some "doc" => strTrim childContent
            | some "p" => childContent ++ "\n\n"
            | some "h1" => "# " ++ childContent ++ "\n\n"
            | some "h2" => "## " ++ childContent ++ "\n\n"
            | some "h3" => "### " ++ childContent ++ "\n\n"
            | some "h4" => "#### " ++ childContent ++ "\n\n"
            | some "h5" => "##### " ++ childContent ++ "\n\n"
            | some "h6" => "###### " ++ childContent ++ "\n\n"
            | some "blockquote" =>
                "> " ++ String.intercalate "\n> " (splitOnChar (strTrim childContent) '\n') ++ "\n\n"
            | some "ul" => String.intercalate "\n" (rteUlOf kvs) ++ "\n\n"
            | some "ol" => String.intercalate "\n" (rteOlOf kvs) ++ "\n\n"
            | some "li" => strTrim childContent
            | some "code_block" =>
                "```" ++ firstTruthyStrD [attrOf kvs "language"] "" ++ "\n" ++
                  strTrim childContent ++ "\n```\n\n"
            | some "code" =>
                "```" ++ firstTruthyStrD [attrOf kvs "language"] "" ++ "\n" ++
                  strTrim childContent ++ "\n```\n\n"
            | some "hr" => "---\n\n"
            | some "a" =>
                "[" ++ childContent ++ "](" ++
                  firstTruthyStrD [attrOf kvs "url", attrOf kvs "href"] "" ++ ")"
            | some "link" =>
                "[" ++ childContent ++ "](" ++
                  firstTruthyStrD [attrOf kvs "url", attrOf kvs "href"] "" ++ ")"
            | some "img" =>
                "![" ++ firstTruthyStrD [attrOf kvs "alt"] "Image" ++ "](" ++
                  firstTruthyStrD [attrOf kvs "src", attrOf kvs "url"] "" ++ ")\n\n"
            | some "image" =>
                "![" ++ firstTruthyStrD [attrOf kvs "alt"] "Image" ++ "](" ++
                  firstTruthyStrD [attrOf kvs "src", attrOf kvs "url"] "" ++ ")\n\n"
            | some "table" =>
                (match rteTableRowsOf kvs with
                 | [] => ""
                 | r0 :: rest =>
                     let tableRows :=
                       (r0 :: rest).map (fun cells => "| " ++ String.intercalate " | " cells ++ " |")
                     let separator :=
                       "| " ++ String.intercalate " | " (List.replicate r0.length ("---")) ++ " |"
                     let spliced :=
                       (match tableRows with
                        | [] => []
                        | h :: tl => h :: separator :: tl)
                     String.intercalate "\n" spliced ++ "\n\n")
            | some "tr" => childContent
            | some "row" => childContent
            | some "td" => childContent
            | some "th" => childContent
            | some "cell" => childContent
            | _ => childContent))
  | _ => ""
/-- `node.children || []` rendered and concatenated, found by walking the
object spine (first occurrence, as in JS). -/
def rteChildrenOf : JsonObj → String
  | JsonObj.nil => ""
  | JsonObj.cons k v tl =>
      if k = "children" then (match v with | Json.arr l => rteConcat l | _ => "")
      else rteChildrenOf tl
/-- Concatenated rendering of an array of nodes (no separator). -/
def rteConcat : JsonArr → String
  | JsonArr.nil => ""
  | JsonArr.cons e tl => jsonRteToMarkdown e ++ rteConcat tl
/-- Unordered-list items: each child trimmed and bulleted. -/
def rteUlOf : JsonObj → List String
  | JsonObj.nil => []
  | JsonObj.cons k v tl =>
      if k = "children" then (match v with | Json.arr l => rteUlItems l | _ => [])
      else rteUlOf tl
def rteUlItems : JsonArr → List String
  | JsonArr.nil => []
  | JsonArr.cons e tl => ("- " ++ strTrim (jsonRteToMarkdown e)) :: rteUlItems tl
/-- Ordered-list items: each child trimmed and numbered from 1. -/
def rteOlOf : JsonObj → List String
  | JsonObj.nil => []
  | JsonObj.cons k v tl =>
      if k = "children" then (match v with | Json.arr l => rteOlItems l 0 | _ => [])
      else rteOlOf tl
def rteOlItems : JsonArr → Nat → List String
  | JsonArr.nil, _ => []
  | JsonArr.cons e tl, i =>
      (toString (i + 1) ++ ". " ++ strTrim (jsonRteToMarkdown e)) :: rteOlItems tl (i + 1)
/-- Table support: the cell lists of the row-typed children. -/
def rteTableRowsOf : JsonObj → List (List String)
  | JsonObj.nil => []
  | JsonObj.cons k v tl =>
      if k = "children" then (match v with | Json.arr l => rteTableRows l | _ => [])
      else rteTableRowsOf tl
def rteTableRows : JsonArr → List (List String)
  | JsonArr.nil => []
  | JsonArr.cons e tl =>
      (match e with
       | Json.obj kvs =>
           if nodeTypeIsRow kvs then rteRowCellsOf kvs :: rteTableRows tl
           else rteTableRows tl
       | _ => rteTableRows tl)
/-- The rendered, escaped cells of one row (`row.children || []`). -/
def rteRowCellsOf : JsonObj → List String
  | JsonObj.nil => []
  | JsonObj.cons k v tl =>
      if k = "children" then (match v with | Json.arr l => rteCells l | _ => [])
      else rteRowCellsOf tl
def rteCells : JsonArr → List String
  | JsonArr.nil => []
  | JsonArr.cons e tl => escapeTableCell (strTrim (jsonRteToMarkdown e)) :: rteCells tl
end

/-- JSON string escaping for `JSON.stringify` (the common escapes; other
control characters would use `\uXXXX` escapes and are not exercised). -/
def escapeJsonChars : List Char → List Char
  | [] => []
  | '"' :: tl => '\\' :: '"' :: escapeJsonChars tl
  | '\\' :: tl => '\\' :: '\\' :: escapeJsonChars tl
  | '\n' :: tl => '\\' :: 'n' :: escapeJsonChars tl
  | '\r' :: tl => '\\' :: 'r' :: escapeJsonChars tl
  | '\t' :: tl => '\\' :: 't' :: escapeJsonChars tl
  | c :: tl => c :: escapeJsonChars tl

mutual
/-- `JSON.stringify(value, null, 2)`: two-space-indented pretty printing.
`ind` is the indentation of the enclosing line. -/
def jsonStringify : Json → String → String
  | Json.null, _ => "null"
  | Json.bool b, _ => if b then "true" else "false"
  | Json.num n, _ => toString n
  | Json.str s, _ => "\"" ++ String.mk (escapeJsonChars s.data) ++ "\""
  | Json.arr JsonArr.nil, _ => "[]"
  | Json.arr l, ind => "[\n" ++ jsonStringifyArr l (ind ++ "  ") ++ "\n" ++ ind ++ "]"
  | Json.obj JsonObj.nil, _ => "\x7b\x7d"
  | Json.obj kvs, ind => "\x7b\n" ++ jsonStringifyObj kvs (ind ++ "  ") ++ "\n" ++ ind ++ "\x7d"
def jsonStringifyArr : JsonArr → String → String
  | JsonArr.nil, _ => ""
  | JsonArr.cons e JsonArr.nil, ind => ind ++ jsonStringify e ind
  | JsonArr.cons e tl, ind => ind ++ jsonStringify e ind ++ ",\n" ++ jsonStringifyArr tl ind
def jsonStringifyObj : JsonObj → String → String
  | JsonObj.nil, _ => ""
  | JsonObj.cons k v JsonObj.nil, ind =>
      ind ++ "\"" ++ String.mk (escapeJsonChars k.data) ++ "\": " ++ jsonStringify v ind
  | JsonObj.cons k v tl, ind =>
      ind ++ "\"" ++ String.mk (escapeJsonChars k.data) ++ "\": " ++ jsonStringify v ind ++
        ",\n" ++ jsonStringifyObj tl ind
end

/-- `Number(value)`: numbers pass through, booleans become 0/1, null is 0,
numeric strings parse; `NaN` (non-numeric input) is modelled as 0 — number
fields only ever carry numbers in the exercised behavior. -/
def jsToNumber : Json → Int
  | Json.num n => n
  | Json.bool b => if b then 1 else 0
  | Json.null => 0
  | Json.str s => (strTrim s).toInt?.getD 0
  | _ => 0

/-- `reference` / `global_field` rendering: `ref.title || "uid: " + ref.uid`. -/
def refRender (v : Json) : String :=
  if truthyO (objGet v "title") then jsToStringU (objGet v "title")
  else "uid: " ++ jsToStringU (objGet v "uid")

/-- `primitiveToMarkdown(value, field, options)`: per-type leaf rendering.
The text case returns `String(value)` on both the rich-text and plain
branches of the source, which therefore collapse into one here. -/
def primitiveToMarkdown (value : Option Json) (field : ContentstackField)
    (options : MdOptions) : String :=
  if isEmpty value then ""
  else
    match value with
    | none => ""
    | some v =>
      match field.data_type with
      | "text" =>
          (match v with
           | Json.arr l =>
               String.intercalate " · " ((JsonArr.toList l).map (fun x => "`" ++ jsToString x ++ "`"))
           | _ => jsToString v)
      | "number" => options.formatNumber (jsToNumber v)
      | "boolean" => if truthy v then "**Yes**" else "**No**"
      | "isodate" => options.formatDate (jsToString v)
      | "link" =>
          let href := objGet v "href"
          if truthyO href then
            "[" ++ (if truthyO (objGet v "title") then jsToStringU (objGet v "title")
                    else jsToStringU href) ++ "](" ++ jsToStringU href ++ ")"
          else if truthyO (objGet v "title") then jsToStringU (objGet v "title") else ""
      | "file" =>
          let url := objGet v "url"
          if truthyO url = false then firstTruthyStrD [objGet v "title", objGet v "filename"] ""
          else if isImageAsset v then
            "![" ++ firstTruthyStrD [objGet v "title", objGet v "filename"] "Image" ++
              "](" ++ jsToStringU url ++ ")"
          else
            "[" ++ firstTruthyStrD [objGet v "title", objGet v "filename"] "File" ++
              "](" ++ jsToStringU url ++ ")"
      | "reference" => refRender v
      | "global_field" => refRender v
      | "json" =>
          if field.fm.allow_json_rte then jsonRteToMarkdown v
          else "```json\n" ++ jsonStringify v "" ++ "\n```"
      | "taxonomy" =>
          (match v with
           | Json.arr l =>
               String.intercalate "\n"
                 ((JsonArr.toList l).map (fun t => "- " ++ jsToStringU (objGet t "term_uid")))
           | _ => "")
      | _ => jsToString v

/-- One iteration of the `groupToTable` loop: `(row?, image?)` for a field
(`none` when skipped). The image extraction fires for a truthy file value
whose asset has a truthy `url` and an image content type; otherwise the
field renders as a table row when non-empty. -/
def groupTableEntry (value : Json) (f : ContentstackField) (options : MdOptions) :
    Option String × Option String :=
  if SYSTEM_FIELDS.contains f.uid && !options.includeSystemFields then (none, none)
  else
    let fieldValue := objGet value f.uid
    if options.skipEmpty && isEmpty fieldValue then (none, none)
    else
      let label := labelOf f
      if f.data_type = "file" && truthyO fieldValue &&
          (match fieldValue with
           | some av => truthyO (objGet av "url") && isImageAsset av
           | none => false) then
        (none, some ("![" ++ label ++ "](" ++
          jsToStringU (objGet (fieldValue.getD Json.null) "url") ++ ")"))
      else
        let rendered := primitiveToMarkdown fieldValue f options
        if rendered ≠ "" then
          (some ("| **" ++ escapeTableCell label ++ "** | " ++ escapeTableCell rendered ++ " |"),
           none)
        else (none, none)

/-- The rows and extracted image lines of a `groupToTable` walk, in field
order. -/
def groupTableEntries (value : Json) : FieldList → MdOptions → List String × List String
  | FieldList.nil, _ => ([], [])
  | FieldList.cons f tl, options =>
      let this := groupTableEntry value f options
      let rest := groupTableEntries value tl options
      ((this.1.toList ++ rest.1), (this.2.toList ++ rest.2))

/-- `groupToTable(value, schema, options)`: a two-column Field/Value table,
with image assets extracted above the table; empty when no rows survive. -/
def groupToTable (value : Json) (schema : FieldList) (options : MdOptions) : String :=
  let pair := groupTableEntries value schema options
  let lines := "| Field | Value |" :: "|-------|-------|" :: pair.1
  let result :=
    (if pair.2 ≠ [] then [String.intercalate "\n\n" pair.2, ""] else []) ++
      (if 2 < lines.length then [String.intercalate "\n" lines] else [])
  String.intercalate "\n" result

/-- The visible columns of a repeatable-group table: never a system field,
and an underscore-prefixed uid only with `includeSystemFields`. -/
def filterVisible : FieldList → MdOptions → FieldList
  | FieldList.nil, _ => FieldList.nil
  | FieldList.cons f tl, options =>
      if !SYSTEM_FIELDS.contains f.uid &&
          (options.includeSystemFields || !(jsStartsWith f.uid ("_"))) then
        FieldList.cons f (filterVisible tl options)
      else filterVisible tl options

/-- The labels of a field list, in order. -/
def fieldLabels : FieldList → List String
  | FieldList.nil => []
  | FieldList.cons f tl => labelOf f :: fieldLabels tl

/-- The cells of one repeatable-group row: empty string for an empty value,
otherwise the escaped primitive rendering. -/
def repeatRowCells (item : Json) : FieldList → MdOptions → List String
  | FieldList.nil, _ => []
  | FieldList.cons f tl, options =>
      (let fieldValue := objGet item f.uid
       if isEmpty fieldValue then ""
       else escapeTableCell (primitiveToMarkdown fieldValue f options)) ::
        repeatRowCells item tl options

/-- The body rows of a repeatable-group table. -/
def repeatRows : JsonArr → FieldList → MdOptions → List String
  | JsonArr.nil, _, _ => []
  | JsonArr.cons item tl, visible, options =>
      ("| " ++ String.intercalate " | " (repeatRowCells item visible options) ++ " |") ::
        repeatRows tl visible options

/-- `repeatableGroupToTable(values, schema, options)`: header, separator and
one row per instance over the visible columns; empty for an empty or
missing array (a truthy non-array would throw in the source's `for..of`
and is not exercised — it yields "" here). -/
def repeatableGroupToTable (values : Json) (schema : FieldList) (options : MdOptions) : String :=
  match values with
  | Json.arr JsonArr.nil => ""
  | Json.arr l =>
      (match filterVisible schema options with
       | FieldList.nil => ""
       | visible =>
           let headers := fieldLabels visible
           String.intercalate "\n"
             (("| " ++ String.intercalate " | " headers ++ " |") ::
              ("| " ++ String.intercalate " | " (headers.map (fun _ => "---")) ++ " |") ::
              repeatRows l visible options))
  | _ => ""

/-- `Object.keys(blockItem).find(k => !k.startsWith("_"))`. -/
def firstNonUnderscoreKey : JsonObj → Option String
  | JsonObj.nil => none
  | JsonObj.cons k _ tl =>
      if !(jsStartsWith k ("_")) then some k else firstNonUnderscoreKey tl

/-- `blockDefs.find(b => b.uid === blockKey)`. -/
def findBlock : BlockList → String → Option ContentstackBlock
  | BlockList.nil, _ => none
  | BlockList.cons b tl, key => if b.uid = key then some b else findBlock tl key

/-- `blockSchema.find(f => f.data_type === "text" && f.mandatory)`. -/
def findFirstTextMandatory : FieldList → Option ContentstackField
  | FieldList.nil => none
  | FieldList.cons f tl =>
      if f.data_type = "text" && f.mandatory then some f else findFirstTextMandatory tl

/-- The non-title field lines of one block body (the non-quote path): each
remaining field renders directly for image files, as quoted lines for
JSON rich text and for multiline or long text, and as `**Label:** value`
otherwise, each followed by a blank line. -/
def blockFieldsLines (blockValue : Json) (ftf : Option ContentstackField)
    (options : MdOptions) : FieldList → List String
  | FieldList.nil => []
  | FieldList.cons f tl =>
      let rest := blockFieldsLines blockValue ftf options tl
      if SYSTEM_FIELDS.contains f.uid && !options.includeSystemFields then rest
      else if (match ftf with | some ft => f.uid == ft.uid | none => false) then rest
      else
        let fieldValue := objGet blockValue f.uid
        if options.skipEmpty && isEmpty fieldValue then rest
        else
          let label := labelOf f
          let rendered := primitiveToMarkdown fieldValue f options
          if rendered ≠ "" then
            (if f.data_type = "file" &&
                (match fieldValue with
                 | some av => truthyO (objGet av "url")
                 | none => false) then rendered
             else if f.data_type = "json" && f.fm.allow_json_rte then
               "> " ++ String.intercalate "\n> " (splitOnChar (strTrim rendered) '\n')
             else if f.fm.multiline || (f.data_type = "text" && 100 < rendered.length) then
               "> " ++ rendered
             else "**" ++ label ++ ":** " ++ rendered) :: "" :: rest
          else rest

/-- The lines of one block instance: nothing for an item without a
non-underscore key or without a matching definition; otherwise a heading
(block title, plus the mandatory-text title value when truthy), the quote
special case or the field lines, and a closing `---` separator. -/
def blockItemLines (item : Json) (defs : BlockList) (level : Nat)
    (options : MdOptions) : List String :=
  match item with
  | Json.obj kvs =>
      (match firstNonUnderscoreKey kvs with
       | none => []
       | some blockKey =>
         (match findBlock defs blockKey with
          | none => []
          | some blockDef =>
              let blockValue := (lookupJ kvs blockKey).getD Json.null
              let blockSchema := blockDef.schemaF
              let blockTitle := jsOrStr blockDef.title blockKey
              let firstTextField := findFirstTextMandatory blockSchema
              let titleValue : Option Json :=
                (match firstTextField with
                 | some ft => objGet blockValue ft.uid
                 | none => none)
              let headLine :=
                if truthyO titleValue then
                  heading (blockTitle ++ ": " ++ jsToStringU titleValue) level
                else heading blockTitle level
              let body :=
                if blockKey = "quote" then
                  (let quoteText := objGet blockValue "quote_text"
                   let attribution := objGet blockValue "attribution"
                   if truthyO quoteText then
                     ("> *\"" ++ jsToStringU quoteText ++ "\"*") ::
                       ((if truthyO attribution then
                           [">", "> — **" ++ jsToStringU attribution ++ "**"]
                         else []) ++ [""])
                   else [])
                else blockFieldsLines blockValue firstTextField options blockSchema
              (headLine :: "" :: body) ++ ["---", ""]))
  | _ => []

/-- All lines of a blocks array, in order. -/
def blockItemsLines : JsonArr → BlockList → Nat → MdOptions → List String
  | JsonArr.nil, _, _, _ => []
  | JsonArr.cons item tl, defs, level, options =>
      blockItemLines item defs level options ++ blockItemsLines tl defs level options

/-- `blocksToMarkdown(blocks, blockDefs, level, options)`: block sections
separated by rules, the trailing separator removed; empty for an empty or
missing array. -/
def blocksToMarkdown (blocks : Json) (blockDefs : BlockList) (level : Nat)
    (options : MdOptions) : String :=
  match blocks with
  | Json.arr JsonArr.nil => ""
  | Json.arr l =>
      let lines := blockItemsLines l blockDefs level options
      let lines2 :=
        if 2 ≤ lines.length && lines.get? (lines.length - 2) = some "---" then
          lines.eraseIdx (lines.length - 2)
        else lines
      strTrim (String.intercalate "\n" lines2)
  | _ => ""

mutual
/-- `groupToHeadings(value, schema, level, options)`: nested headings for
complex groups (see `groupFieldsLines` for the per-field cases). -/
def groupToHeadings (value : Json) (schema : FieldList) (level : Nat)
    (options : MdOptions) : String :=
  strTrim (String.intercalate "\n" (groupFieldsLines value schema level options))
/-- The lines pushed by the `groupToHeadings` loop. The field is
destructured so the recursion into its child schema stays structural; an
undefined field value (possible only with `skipEmpty` off) degrades to a
missing object, where the source would throw. -/
def groupFieldsLines (value : Json) : FieldList → Nat → MdOptions → List String
  | FieldList.nil, _, _ => []
  | FieldList.cons f tl, level, options =>
      (match f with
       | ContentstackField.mk fuid fdt fdn _ fmult _ fschema fblocks ffm _ _ _ _ =>
         if SYSTEM_FIELDS.contains fuid && !options.includeSystemFields then []
         else
           let fieldValue := objGet value fuid
           if options.skipEmpty && isEmpty fieldValue then []
           else
             let label := jsOrStr fdn fuid
             if fdt = "group" && !fmult then
               let groupValue := fieldValue.getD Json.null
               [heading label level, ""] ++
                 [if hasNestedGroups fschema then
                    groupToHeadings groupValue fschema (level + 1) options
                  else if options.useTables then groupToTable groupValue fschema options
                  else groupToHeadings groupValue fschema (level + 1) options] ++ [""]
             else if fdt = "group" && fmult then
               [heading label level, "",
                repeatableGroupToTable (fieldValue.getD Json.null) fschema options, ""]
             else if fdt = "blocks" then
               [heading label level, "",
                blocksToMarkdown (fieldValue.getD Json.null) fblocks (level + 1) options]
             else
               let rendered := primitiveToMarkdown fieldValue f options
               if rendered ≠ "" then
                 (if fdt = "file" &&
                     (match fieldValue with
                      | some av => truthyO (objGet av "url")
                      | none => false) then [rendered]
                  else if fdt = "json" && ffm.allow_json_rte then
                    ["**" ++ label ++ ":**", "", rendered]
                  else ["**" ++ label ++ ":** " ++ rendered]) ++ [""]
               else []) ++ groupFieldsLines value tl level options
end

/-- The lines pushed for one schema field by the `entryToMarkdown` loop
(title, description and system fields skipped; groups, repeatable groups
and blocks as rule-separated heading sections; primitives per the final
branch: file and JSON-rich-text fields as their own heading section,
multiple text inline after a rule, everything else as `**Label:** value`). -/
def entryFieldLines (entry : Json) (f : ContentstackField) (options : MdOptions) : List String :=
  if f.uid = options.titleField || f.uid = options.descriptionField then []
  else if SYSTEM_FIELDS.contains f.uid && !options.includeSystemFields then []
  else
    let fieldValue := objGet entry f.uid
    if options.skipEmpty && isEmpty fieldValue then []
    else
      let label := labelOf f
      let fieldLevel := options.headingLevel + 1
      if f.data_type = "group" && !f.multiple then
        ["---", "", heading label fieldLevel, ""] ++
          [if hasNestedGroups f.schemaF then
             groupToHeadings (fieldValue.getD Json.null) f.schemaF (fieldLevel + 1) options
           else if options.useTables then
             groupToTable (fieldValue.getD Json.null) f.schemaF options
           else groupToHeadings (fieldValue.getD Json.null) f.schemaF (fieldLevel + 1) options] ++
          [""]
      else if f.data_type = "group" && f.multiple then
        ["---", "", heading label fieldLevel, "",
         repeatableGroupToTable (fieldValue.getD Json.null) f.schemaF options, ""]
      else if f.data_type = "blocks" then
        ["---", "", heading label fieldLevel, "",
         blocksToMarkdown (fieldValue.getD Json.null) f.blocksF (fieldLevel + 1) options, ""]
      else
        let rendered := primitiveToMarkdown fieldValue f options
        if rendered ≠ "" then
          if f.data_type = "file" || (f.data_type = "json" && f.fm.allow_json_rte) then
            ["---", "", heading label fieldLevel, "", rendered, ""]
          else if f.multiple && f.data_type = "text" then
            ["---", "", "**" ++ label ++ ":** " ++ rendered, ""]
          else ["**" ++ label ++ ":** " ++ rendered, ""]
        else []

/-- The concatenated per-field lines of the `entryToMarkdown` loop. -/
def entryFieldsLines (entry : Json) : FieldList → MdOptions → List String
  | FieldList.nil, _ => []
  | FieldList.cons f tl, options =>
      entryFieldLines entry f options ++ entryFieldsLines entry tl options

/-- `entryToMarkdown(entry, contentType, options)`: the title field as a
heading when it is a truthy string, the description field as a blockquote
when it is a truthy string, then the remaining schema fields in order. -/
def entryToMarkdown (entry : Json) (contentType : ContentstackContentType)
    (options : MdOptions) : String :=
  let titlePart :=
    (match objGet entry options.titleField with
     | some (Json.str s) => if s ≠ "" then [heading s options.headingLevel, ""] else []
     | _ => [])
  let descPart :=
    (match objGet entry options.descriptionField with
     | some (Json.str s) => if s ≠ "" then ["> " ++ s, ""] else []
     | _ => [])
  strTrim (String.intercalate "\n"
    (titlePart ++ descPart ++ entryFieldsLines entry contentType.schema options))

/-- `DEFAULT_OPTIONS`: heading level 1, the human date formatter, the
comma/abbreviation number formatter, skip empty values, exclude system
fields, use tables, `title` / `meta_description` as title and description. -/
def defaultOptions : MdOptions :=
  MdOptions.mk 1 formatDateHuman formatNumberWithCommas true false true
    ("title") ("meta_description")

/-- The `(text, level)` arguments of every `heading(...)` call made while
rendering one block item (mirrors `blockItemLines`). -/
def blockItemHeadingArgs (item : Json) (defs : BlockList) (level : Nat) : List (String × Nat) :=
  match item with
  | Json.obj kvs =>
      (match firstNonUnderscoreKey kvs with
       | none => []
       | some blockKey =>
         (match findBlock defs blockKey with
          | none => []
          | some blockDef =>
              let blockValue := (lookupJ kvs blockKey).getD Json.null
              let blockTitle := jsOrStr blockDef.title blockKey
              let titleValue : Option Json :=
                (match findFirstTextMandatory blockDef.schemaF with
                 | some ft => objGet blockValue ft.uid
                 | none => none)
              if truthyO titleValue then [(blockTitle ++ ": " ++ jsToStringU titleValue, level)]
              else [(blockTitle, level)]))
  | _ => []

/-- The heading-call arguments of `blocksToMarkdown` over a whole array. -/
def blockArrHeadingArgs : JsonArr → BlockList → Nat → List (String × Nat)
  | JsonArr.nil, _, _ => []
  | JsonArr.cons item tl, defs, level =>
      blockItemHeadingArgs item defs level ++ blockArrHeadingArgs tl defs level

/-- The heading-call arguments of `blocksToMarkdown` (mirrors its guards on
the array). -/
def blocksHeadingArgs (blocks : Json) (defs : BlockList) (level : Nat) : List (String × Nat) :=
  match blocks with
  | Json.arr JsonArr.nil => []
  | Json.arr l => blockArrHeadingArgs l defs level
  | _ => []

/-- The heading-call arguments of `groupToHeadings` (mirrors
`groupFieldsLines`: a heading per group/blocks field, recursion into
nested groups exactly when the rendering recurses, none for primitive
fields, which emit no heading there). -/
def groupHeadingArgs (value : Json) : FieldList → Nat → MdOptions → List (String × Nat)
  | FieldList.nil, _, _ => []
  | FieldList.cons f tl, level, options =>
      (match f with
       | ContentstackField.mk fuid fdt fdn _ fmult _ fschema fblocks _ _ _ _ _ =>
         if SYSTEM_FIELDS.contains fuid && !options.includeSystemFields then []
         else
           let fieldValue := objGet value fuid
           if options.skipEmpty && isEmpty fieldValue then []
           else
             let label := jsOrStr fdn fuid
             if fdt = "group" && !fmult then
               (label, level) ::
                 (if hasNestedGroups fschema then
                    groupHeadingArgs (fieldValue.getD Json.null) fschema (level + 1) options
                  else if options.useTables then []
                  else groupHeadingArgs (fieldValue.getD Json.null) fschema (level + 1) options)
             else if fdt = "group" && fmult then [(label, level)]
             else if fdt = "blocks" then
               (label, level) :: blocksHeadingArgs (fieldValue.getD Json.null) fblocks (level + 1)
             else []) ++ groupHeadingArgs value tl level options

/-- The heading-call arguments for one schema field of the `entryToMarkdown`
loop (mirrors `entryFieldLines`). -/
def entryFieldHeadingArgs (entry : Json) (f : ContentstackField) (options : MdOptions) :
    List (String × Nat) :=
  if f.uid = options.titleField || f.uid = options.descriptionField then []
  else if SYSTEM_FIELDS.contains f.uid && !options.includeSystemFields then []
  else
    let fieldValue := objGet entry f.uid
    if options.skipEmpty && isEmpty fieldValue then []
    else
      let label := labelOf f
      let fieldLevel := options.headingLevel + 1
      if f.data_type = "group" && !f.multiple then
        (label, fieldLevel) ::
          (if hasNestedGroups f.schemaF then
             groupHeadingArgs (fieldValue.getD Json.null) f.schemaF (fieldLevel + 1) options
           else if options.useTables then []
           else groupHeadingArgs (fieldValue.getD Json.null) f.schemaF (fieldLevel + 1) options)
      else if f.data_type = "group" && f.multiple then [(label, fieldLevel)]
      else if f.data_type = "blocks" then
        (label, fieldLevel) ::
          blocksHeadingArgs (fieldValue.getD Json.null) f.blocksF (fieldLevel + 1)
      else
        let rendered := primitiveToMarkdown fieldValue f options
        if rendered ≠ "" then
          if f.data_type = "file" || (f.data_type = "json" && f.fm.allow_json_rte) then
            [(label, fieldLevel)]
          else []
        else []

/-- The heading-call arguments of the whole `entryToMarkdown` field loop. -/
def entryFieldsHeadingArgs (entry : Json) : FieldList → MdOptions → List (String × Nat)
  | FieldList.nil, _ => []
  | FieldList.cons f tl, options =>
      entryFieldHeadingArgs entry f options ++ entryFieldsHeadingArgs entry tl options

/-- Every `(text, level)` argument passed to `heading` during
`entryToMarkdown` (the title heading plus the field walk, including the
nested `groupToHeadings` / `blocksToMarkdown` calls). -/
def entryHeadingArgs (entry : Json) (contentType : ContentstackContentType)
    (options : MdOptions) : List (String × Nat) :=
  (match objGet entry options.titleField with
   | some (Json.str s) => if s ≠ "" then [(s, options.headingLevel)] else []
   | _ => []) ++ entryFieldsHeadingArgs entry contentType.schema options

/-- Stated from the spec's words, for comparison with the source: the
inline-mark wrapping of a rich-text text leaf "in a fixed, deterministic
order — bold, italic, underline, strikethrough, code, superscript,
subscript" (innermost to outermost), applied regardless of whether the
text is empty. -/
def specInlineMarks (t : String) (b i u st c sup sub : Bool) : String :=
  let w1 := if b then "**" ++ t ++ "**" else t
  let w2 := if i then "*" ++ w1 ++ "*" else w1
  let w3 := if u then "<u>" ++ w2 ++ "</u>" else w2
  let w4 := if st then "~~" ++ w3 ++ "~~" else w3
  let w5 := if c then "`" ++ w4 ++ "`" else w4
  let w6 := if sup then "<sup>" ++ w5 ++ "</sup>" else w5
  if sub then "<sub>" ++ w6 ++ "</sub>" else w6

/-- A rich-text text leaf with the seven mark flags. -/
def mkRteTextNode (t : String) (b i u st c sup sub : Bool) : Json :=
  jO [("text", Json.str t), ("bold", Json.bool b), ("italic", Json.bool i),
      ("underline", Json.bool u), ("strikethrough", Json.bool st), ("code", Json.bool c),
      ("superscript", Json.bool sup), ("subscript", Json.bool sub)]

/-- Number of leading `#` markers of a line. -/
def leadingHashes (s : String) : Nat := (s.data.takeWhile (fun c => c = '#')).length

/-- Does a value, viewed as a JS object, have the given own key? -/
def jsonHasKey (e : Json) (k : String) : Bool :=
  match e with
  | Json.obj kvs => (lookupJ kvs k).isSome
  | _ => false

/-- The uids of the mandatory fields of a field list. -/
def mandatoryUids : FieldList → List String
  | FieldList.nil => []
  | FieldList.cons f tl =>
      if f.mandatory then f.uid :: mandatoryUids tl else mandatoryUids tl

/-- Remove the members with the given keys from an object. -/
def removeKeysObj : JsonObj → List String → JsonObj
  | JsonObj.nil, _ => JsonObj.nil
  | JsonObj.cons k v tl, rem =>
      if rem.contains k then removeKeysObj tl rem
      else JsonObj.cons k v (removeKeysObj tl rem)

/-- Remove top-level keys from an entry (identity on non-objects). -/
def removeKeys (e : Json) (rem : List String) : Json :=
  match e with
  | Json.obj kvs => Json.obj (removeKeysObj kvs rem)
  | v => v

/-- Convert a `ZodList` to a list. -/
def ZodList.toList : ZodList → List ZodSchema
  | ZodList.nil => []
  | ZodList.cons s tl => s :: tl.toList

/-- The (key, schema) entries of a shape, in order. -/
def shapeEntries : ZodShape → List (String × ZodSchema)
  | ZodShape.nil => []
  | ZodShape.cons k s tl => (k, s) :: shapeEntries tl

/-- Are the declared keys of a shape pairwise distinct? (Shapes built by
`shapeOfFields` always are, mirroring JS object keys.) -/
def shapeKeysNodup : ZodShape → Bool
  | ZodShape.nil => true
  | ZodShape.cons k _ tl => !shapeHasKey tl k && shapeKeysNodup tl

mutual
/-- Schemas whose every object shape has pairwise-distinct keys — an
invariant of everything `fieldToZod` produces. -/
def zwfS : ZodSchema → Bool
  | ZodSchema.zoptional s => zwfS s
  | ZodSchema.znullable s => zwfS s
  | ZodSchema.zarray s _ => zwfS s
  | ZodSchema.zobject sh _ => shapeKeysNodup sh && zwfShape sh
  | ZodSchema.zunion l => zwfList l
  | _ => true
def zwfShape : ZodShape → Bool
  | ZodShape.nil => true
  | ZodShape.cons _ s tl => zwfS s && zwfShape tl
def zwfList : ZodList → Bool
  | ZodList.nil => true
  | ZodList.cons s tl => zwfS s && zwfList tl
end

mutual
/-- A size measure on the schema grammar (for strong induction). -/
def zsizeS : ZodSchema → Nat
  | ZodSchema.zoptional s => zsizeS s + 1
  | ZodSchema.znullable s => zsizeS s + 1
  | ZodSchema.zarray s _ => zsizeS s + 1
  | ZodSchema.zobject sh _ => zsizeShape sh + 1
  | ZodSchema.zunion l => zsizeList l + 1
  | _ => 1
def zsizeShape : ZodShape → Nat
  | ZodShape.nil => 0
  | ZodShape.cons _ s tl => zsizeS s + zsizeShape tl + 1
def zsizeList : ZodList → Nat
  | ZodList.nil => 0
  | ZodList.cons s tl => zsizeS s + zsizeList tl + 1
end

mutual
/-- Size measures on the field grammar (for strong induction on
`fieldToZod`). -/
def fsizeF : ContentstackField → Nat
  | ContentstackField.mk _ _ _ _ _ _ schemaF blocksF _ _ _ _ _ =>
      fsizeFL schemaF + fsizeBL blocksF + 1
def fsizeFL : FieldList → Nat
  | FieldList.nil => 0
  | FieldList.cons f tl => fsizeF f + fsizeFL tl + 1
def fsizeB : ContentstackBlock → Nat
  | ContentstackBlock.mk _ _ _ schemaF => fsizeFL schemaF + 1
def fsizeBL : BlockList → Nat
  | BlockList.nil => 0
  | BlockList.cons b tl => fsizeB b + fsizeBL tl + 1
end

/-- C1/C2/C3... concrete data. A content type with one mandatory group
`info` whose schema has a mandatory text field `name`. -/
def ctC1 : ContentstackContentType :=
  ContentstackContentType.mk none none (fL [
    ContentstackField.mk "info" "group" (some "Info") true false none
      (fL [mkPrim "name" "text" none true]) BlockList.nil fmNone none none none none])

/-- An entry supplying the group object but omitting its mandatory `name`. -/
def eC1 : Json := jO [("info", jO [])]

/-- A content type with a mandatory `title` and an optional `subtitle`. -/
def ctC2 : ContentstackContentType :=
  ContentstackContentType.mk none none (fL [
    mkPrim "title" "text" none true,
    mkPrim "subtitle" "text" none false])

/-- A content type with one optional group `info` (mandatory `name`). -/
def ctC3 : ContentstackContentType :=
  ContentstackContentType.mk none none (fL [
    ContentstackField.mk "info" "group" (some "Info") false false none
      (fL [mkPrim "name" "text" none true]) BlockList.nil fmNone none none none none])

/-- An entry with an undeclared nested key (`extra`, inside the group) and
an undeclared top-level key (`junk`). -/
def eC3 : Json :=
  jO [("info", jO [("name", Json.str "x"), ("extra", Json.num 1)]), ("junk", Json.num 9)]

/-- A content type whose blocks field declares no block definitions. -/
def ctC4 : ContentstackContentType :=
  ContentstackContentType.mk none none (fL [
    ContentstackField.mk "blks" "blocks" none true false none
      FieldList.nil BlockList.nil fmNone none none none none])

/-- An entry whose blocks array element matches no variant (there are none). -/
def eC4 : Json := jO [("blks", jA [jO [("foo", Json.num 1)]])]

/-- A blocks field with one declared block definition `hero` (for the C4
witness). -/
def fC4 : ContentstackField :=
  ContentstackField.mk "blks" "blocks" none true false none FieldList.nil
    (bL [ContentstackBlock.mk "hero" (some "Hero") none
      (fL [mkPrim "heading" "text" none true])])
    fmNone none none none none

/-- A blocks value whose single element carries only an undeclared key. -/
def elemsC4 : JsonArr := jArr [jO [("foo", Json.num 1)]]

/-- A content type with a title and a non-image file field. -/
def ctC5 : ContentstackContentType :=
  ContentstackContentType.mk none none (fL [
    mkPrim "title" "text" none true,
    mkPrim "doc" "file" (some "Document") false])

/-- The non-image file field of `ctC5`. -/
def fC5 : ContentstackField := mkPrim "doc" "file" (some "Document") false

/-- An entry whose file value is a PDF (image-bearing: no). -/
def eC5 : Json :=
  jO [("title", Json.str "T"),
      ("doc", jO [("uid", Json.str "a1"), ("url", Json.str "https://x/f.pdf"),
                  ("title", Json.str "Spec PDF"), ("content_type", Json.str "application/pdf")])]

/-- A content type with one simple group (for the C8 witness). -/
def ctC8 : ContentstackContentType :=
  ContentstackContentType.mk none none (fL [
    ContentstackField.mk "info" "group" (some "Info") false false none
      (fL [mkPrim "name" "text" none true]) BlockList.nil fmNone none none none none])

/-- An entry with a non-empty group value. -/
def eC8 : Json := jO [("info", jO [("name", Json.str "x")])]

/-- A content type with one mandatory plain-JSON field (no JSON-RTE flag). -/
def ctC9 : ContentstackContentType :=
  ContentstackContentType.mk none none (fL [
    mkPrim "data" "json" none true])

/-- Markdown options equal to the defaults except `includeSystemFields`. -/
def optsInc : MdOptions :=
  MdOptions.mk 1 formatDateHuman formatNumberWithCommas true true true
    ("title") ("meta_description")

/-- A schema with a single non-system, underscore-prefixed field. -/
def uschC10 : FieldList := fL [mkPrim "_notes" "text" none false]

/-- A schema with a single system-uid column (`created_at`, as a text field
so the rendering needs no date machinery). -/
def gsC10 : FieldList := fL [mkPrim "created_at" "text" none false]

/-- A group value for `gsC10`. -/
def gvC10 : Json := jO [("created_at", Json.str "x")]

theorem data_append (a b : String) : (a ++ b).data = a.data ++ b.data := rfl

theorem strRepeat_hash_data (k : Nat) :
    (strRepeat ("#") k).data = List.replicate k '#' := by
  induction k with
  | zero => rfl
  | succ n ih => simp [strRepeat, data_append, ih, List.replicate_succ]

theorem takeWhile_hash_replicate (k : Nat) (rest : List Char) :
    (List.replicate k '#' ++ ' ' :: rest).takeWhile (fun c => c = '#')
      = List.replicate k '#' := by
  induction k with
  | zero => rfl
  | succ n ih => simp [List.replicate_succ, List.takeWhile_cons, ih]

theorem heading_hash_count (t : String) (l : Nat) :
    leadingHashes (heading t l) = min (max l 1) 6 := by
  unfold heading leadingHashes
  have hd : (strRepeat ("#") (min (max l 1) 6) ++ " " ++ t).data
      = List.replicate (min (max l 1) 6) '#' ++ ' ' :: t.data := by
    rw [data_append, data_append, strRepeat_hash_data]
    simp
  rw [hd, takeWhile_hash_replicate, List.length_replicate]

/-- Claim C7: the default number formatter maps 1000 to "1,000", 15921 to
"15,921", 1500000 to "1.5M", 40000000 to "40M" and 1000000000 to "1B". -/
theorem claim_C7_number_formatting :
    formatNumberWithCommas 1000 = "1,000" ∧
    formatNumberWithCommas 15921 = "15,921" ∧
    formatNumberWithCommas 1500000 = "1.5M" ∧
    formatNumberWithCommas 40000000 = "40M" ∧
    formatNumberWithCommas 1000000000 = "1B" :=
  ⟨rfl, rfl, rfl, rfl, rfl⟩

/-- Claim C6: on a rich-text text leaf, `jsonRteToMarkdown` applies the
inline marks in the fixed order bold, italic, underline, strikethrough,
code, superscript, subscript (innermost to outermost), exactly as the
spec-side `specInlineMarks` describes, for every text including the empty
string; in particular a bold leaf with empty text renders as `"****"`. -/
theorem claim_C6_inline_mark_order :
    (∀ (t : String) (b i u st c sup sub : Bool),
        jsonRteToMarkdown (mkRteTextNode t b i u st c sup sub)
          = specInlineMarks t b i u st c sup sub) ∧
    jsonRteToMarkdown (mkRteTextNode "" true false false false false false false) = "****" := by
  constructor
  · intro t b i u st c sup sub
    cases b <;> cases i <;> cases u <;> cases st <;> cases c <;> cases sup <;> cases sub <;> rfl
  · rfl

/-- Claim C1 counterexample: the draft validator is not recursive — an entry
that supplies the group object `info` but omits the mandatory nested
`name` is rejected by `validateDraft`, while omitting the whole top-level
group is accepted. -/
theorem claim_C1_counterexample :
    (validateDraft ctC1 eC1).isSome = false ∧
    (validateDraft ctC1 (jO [])).isSome = true := ⟨rfl, rfl⟩

theorem shapeAllOpt_empty_obj : ∀ (sh : ZodShape),
    zparseShape (shapeAllOpt sh) JsonObj.nil = some JsonObj.nil
  | ZodShape.nil => rfl
  | ZodShape.cons _ s tl => by
      simp [shapeAllOpt, zparseShape, zparse, lookupJ, shapeAllOpt_empty_obj tl]

/-- Claim C1 (amended): `.partial()` relaxes only the top level — for every
content type and options, the draft validator accepts the empty object
(every top-level field may be absent), while a mandatory field nested in a
supplied group object is still enforced (see the counterexample). -/
theorem claim_C1_amended (ct : ContentstackContentType) (so : SchemaOptions) :
    (zparse (contentTypeToDraftZod ct so) (some (Json.obj JsonObj.nil))).isSome = true := by
  show (zparse (ZodSchema.zobject (shapeAllOpt (shapeOfFields ZodShape.nil ct.schema so)) false)
      (some (Json.obj JsonObj.nil))).isSome = true
  simp [zparse, shapeAllOpt_empty_obj]

/-- Claim C5 counterexample: a non-image file field (`application/pdf`) is
not emitted as `**Document:** ...` — it gets its own heading section after
a horizontal rule. -/
theorem claim_C5_counterexample :
    entryToMarkdown eC5 ctC5 defaultOptions
      = "# T\n\n---\n\n## Document\n\n[Spec PDF](https://x/f.pdf)" ∧
    strContainsSub (entryToMarkdown eC5 ctC5 defaultOptions) ("**Document:**") = false :=
  ⟨rfl, rfl⟩

/-- Claim C5 (amended): in `entryToMarkdown`'s walk, for a visible,
non-skipped field with a non-empty primitive rendering: every file field —
image or not — and every JSON-rich-text field is emitted as its own heading
section preceded by a horizontal rule; a multiple-text field is emitted
inline (`**Label:** value`) after a horizontal-rule separator; every other
primitive field is emitted as plain `**Label:** value` with no separator. -/
theorem claim_C5_amended (entry : Json) (f : ContentstackField) (options : MdOptions)
    (ht : ¬ f.uid = options.titleField) (hd : ¬ f.uid = options.descriptionField)
    (hs : (SYSTEM_FIELDS.contains f.uid && !options.includeSystemFields) = false)
    (he : (options.skipEmpty && isEmpty (objGet entry f.uid)) = false)
    (hr : primitiveToMarkdown (objGet entry f.uid) f options ≠ "") :
    ((f.data_type = "file" ∨ (f.data_type = "json" ∧ f.fm.allow_json_rte = true)) →
      entryFieldLines entry f options =
        ["---", "", heading (labelOf f) (options.headingLevel + 1), "",
         primitiveToMarkdown (objGet entry f.uid) f options, ""]) ∧
    (f.data_type = "text" → f.multiple = true →
      entryFieldLines entry f options =
        ["---", "", "**" ++ labelOf f ++ ":** " ++
           primitiveToMarkdown (objGet entry f.uid) f options, ""]) ∧
    (¬ f.data_type = "group" → ¬ f.data_type = "blocks" → ¬ f.data_type = "file" →
      (f.data_type = "json" → f.fm.allow_json_rte = false) →
      (f.data_type = "text" → f.multiple = false) →
      entryFieldLines entry f options =
        ["**" ++ labelOf f ++ ":** " ++
           primitiveToMarkdown (objGet entry f.uid) f options, ""]) := by
  simp at hs he
  have h1 : ¬(f.uid ∈ SYSTEM_FIELDS ∧ options.includeSystemFields = false) := by
    rintro ⟨a, b⟩
    simp [hs a] at b
  have h2 : ¬(options.skipEmpty = true ∧ isEmpty (objGet entry f.uid) = true) := by
    rintro ⟨a, b⟩
    simp [he a] at b
  refine ⟨?_, ?_, ?_⟩
  · rintro (hdt | ⟨hdt, hrte⟩)
    · unfold entryFieldLines
      simp [ht, hd, hdt, hr, hs, he]
      rw [if_neg h1, if_neg h2]
    · unfold entryFieldLines
      simp [ht, hd, hdt, hrte, hr, hs, he]
      rw [if_neg h1, if_neg h2]
  · intro hdt hm
    unfold entryFieldLines
    simp [ht, hd, hdt, hm, hr, hs, he]
    rw [if_neg h1, if_neg h2]
  · intro hg hb hf hj hmt
    unfold entryFieldLines
    by_cases hdj : f.data_type = "json"
    · have hrte := hj hdj
      simp [ht, hd, hg, hb, hf, hdj, hrte, hr, hs, he]
      rw [if_neg h1, if_neg h2]
    · by_cases hdtext : f.data_type = "text"
      · have hm := hmt hdtext
        simp [ht, hd, hg, hb, hf, hdj, hdtext, hm, hr, hs, he]
        rw [if_neg h1, if_neg h2]
      · simp [ht, hd, hg, hb, hf, hdj, hdtext, hr, hs, he]
        rw [if_neg h1, if_neg h2]

/-- Claim C5 witness: the amended statement applied at the concrete PDF
field (the file/heading-section branch). -/
theorem claim_C5_amended_witness :
    entryFieldLines eC5 fC5 defaultOptions =
      ["---", "", heading (labelOf fC5) (defaultOptions.headingLevel + 1), "",
       primitiveToMarkdown (objGet eC5 fC5.uid) fC5 defaultOptions, ""] :=
  (claim_C5_amended eC5 fC5 defaultOptions (by decide) (by decide) rfl rfl
    (by decide)).1 (Or.inl rfl)

theorem filterVisible_no_system : ∀ (schema : FieldList) (options : MdOptions)
    (f : ContentstackField), f ∈ (filterVisible schema options).toList →
    SYSTEM_FIELDS.contains f.uid = false
  | FieldList.nil, options, f => by
      intro h
      simp [filterVisible, FieldList.toList] at h
  | FieldList.cons g tl, options, f => by
      intro h
      unfold filterVisible at h
      by_cases hc : (!SYSTEM_FIELDS.contains g.uid &&
          (options.includeSystemFields || !(jsStartsWith g.uid ("_")))) = true
      · rw [if_pos hc] at h
        simp only [FieldList.toList, List.mem_cons] at h
        rcases h with h | h
        · subst h
          have hg := ((Bool.and_eq_true _ _).mp hc).1
          simpa using hg
        · exact filterVisible_no_system tl options f h
      · rw [if_neg hc] at h
        exact filterVisible_no_system tl options f h

/-- Claim C10: in `repeatableGroupToTable`, columns with a system-field uid
are excluded unconditionally — even with `includeSystemFields = true` —
while the option does re-include system fields elsewhere (the Field/Value
table renders a `created_at` row with the option on, and omits it by
default), and within the repeatable table the option governs only
underscore-prefixed non-system uids (`_notes` appears with the option on,
disappears with it off). -/
theorem claim_C10_repeatable_system_columns :
    (∀ (schema : FieldList) (options : MdOptions) (f : ContentstackField),
        f ∈ (filterVisible schema options).toList → SYSTEM_FIELDS.contains f.uid = false) ∧
    (filterVisible uschC10 optsInc).uids = ["_notes"] ∧
    (filterVisible uschC10 defaultOptions).uids = [] ∧
    strContainsSub (groupToTable gvC10 gsC10 optsInc) ("**created_at**") = true ∧
    strContainsSub (groupToTable gvC10 gsC10 defaultOptions) ("created_at") = false ∧
    strContainsSub (repeatableGroupToTable (jA [gvC10]) gsC10 optsInc) ("created_at") = false :=
  ⟨filterVisible_no_system, rfl, rfl, rfl, rfl, rfl⟩

/-- Claim C10 witness: the universal part applied to the concrete
underscore-prefixed column that survives the filter. -/
theorem claim_C10_witness :
    SYSTEM_FIELDS.contains (mkPrim "_notes" "text" none false).uid = false :=
  claim_C10_repeatable_system_columns.1 uschC10 optsInc
    (mkPrim "_notes" "text" none false) (List.Mem.head _)

/-- Claim C8: the `heading` helper clamps its level into 1..6, so every
heading emitted by `entryToMarkdown` (including those of `groupToHeadings`
and `blocksToMarkdown`, whose call arguments `entryHeadingArgs` collects)
uses between one and six `#` markers, at any nesting depth. -/
theorem claim_C8_heading_clamp (entry : Json) (ct : ContentstackContentType)
    (options : MdOptions) (p : String × Nat)
    (_hp : p ∈ entryHeadingArgs entry ct options) :
    1 ≤ leadingHashes (heading p.1 p.2) ∧ leadingHashes (heading p.1 p.2) ≤ 6 := by
  constructor <;> rw [heading_hash_count] <;> omega

/-- Claim C8 witness: the clamp bound at the one heading emitted for the
concrete entry `eC8`. -/
theorem claim_C8_witness :
    1 ≤ leadingHashes (heading ("Info", 2).1 ("Info", 2).2) ∧
    leadingHashes (heading ("Info", 2).1 ("Info", 2).2) ≤ 6 :=
  claim_C8_heading_clamp eC8 ctC8 defaultOptions ("Info", 2) (List.Mem.head _)

/-- Claim C9 counterexample: a mandatory plain-JSON field maps to `z.any()`,
which accepts an explicit null — the draft validator accepts
`{data: null}` although the claim says a mandatory field still rejects
explicit null in draft mode. -/
theorem claim_C9_counterexample :
    (validateDraft ctC9 (jO [("data", Json.null)])).isSome = true := rfl

/-- Claim C4 counterexample: a blocks field that declares no block
definitions builds `z.array(z.any())`, so an element with an unmatched key
is accepted, not rejected as having no matching variant. -/
theorem claim_C4_counterexample :
    (validateEntry ctC4 eC4).isSome = true := rfl

theorem zparse_zobject_none (sh : ZodShape) (p : Bool) :
    zparse (ZodSchema.zobject sh p) none = none := rfl

theorem zparse_singleKeyObj_rejects (inner : ZodSchema) (key : String) (pass : Bool) (e : Json)
    (hinner : zparse inner none = none)
    (h : jsonHasKey e key = false) :
    zparse (ZodSchema.zobject (ZodShape.cons key inner ZodShape.nil) pass) (some e) = none := by
  cases e with
  | obj kvs =>
      simp only [jsonHasKey] at h
      cases hlk : lookupJ kvs key with
      | some v => simp [hlk] at h
      | none => simp [zparse, zparseShape, hlk, hinner]
  | null => rfl
  | bool b => rfl
  | num n => rfl
  | str s => rfl
  | arr l => rfl

theorem blockToZod_rejects (b : ContentstackBlock) (so : SchemaOptions) (e : Json)
    (h : jsonHasKey e b.uid = false) : zparse (blockToZod b so) (some e) = none := by
  rcases b with ⟨buid, btitle, brefTo, bschema⟩
  simp only [ContentstackBlock.uid] at h
  unfold blockToZod
  by_cases hb : optStrTruthy brefTo = true
  · simp only [hb, if_true]
    exact zparse_singleKeyObj_rejects _ _ _ _ rfl h
  · rw [if_neg hb]
    exact zparse_singleKeyObj_rejects _ _ _ _ rfl h

theorem zparseUnion_rejects : ∀ (l : ZodList) (v : Option Json),
    (∀ s ∈ l.toList, zparse s v = none) → zparseUnion l v = none
  | ZodList.nil, _, _ => rfl
  | ZodList.cons s tl, v, h => by
      have hs := h s (List.Mem.head _)
      have ht := zparseUnion_rejects tl v (fun s' hs' => h s' (List.mem_cons_of_mem _ hs'))
      simp [zparseUnion, hs, ht]

theorem blocksToZodList_member : ∀ (bl : BlockList) (so : SchemaOptions) (s : ZodSchema),
    s ∈ (blocksToZodList bl so).toList → ∃ b ∈ bl.toList, s = blockToZod b so
  | BlockList.nil, _, _ => by intro h; simp [blocksToZodList, ZodList.toList] at h
  | BlockList.cons b tl, so, s => by
      intro h
      simp only [blocksToZodList, ZodList.toList, List.mem_cons] at h
      rcases h with h | h
      · exact ⟨b, List.Mem.head _, h⟩
      · obtain ⟨b', hb', hs'⟩ := blocksToZodList_member tl so s h
        exact ⟨b', List.mem_cons_of_mem _ hb', hs'⟩

theorem zparseArrWith_fails : ∀ (p : Json → Option (Option Json)) (elems : JsonArr) (e : Json),
    e ∈ elems.toList → p e = none → zparseArrWith p elems = none
  | _, JsonArr.nil, e => by intro h; simp [JsonArr.toList] at h
  | p, JsonArr.cons a tl, e => by
      intro h hpe
      simp only [JsonArr.toList, List.mem_cons] at h
      rcases h with h | h
      · subst h
        simp [zparseArrWith, hpe]
      · have ht := zparseArrWith_fails p tl e h hpe
        simp [zparseArrWith, ht]

theorem zparse_zarray_elem_fails (s : ZodSchema) (m : Option Nat) (elems : JsonArr) (e : Json)
    (he : e ∈ elems.toList) (hf : zparse s (some e) = none) :
    zparse (ZodSchema.zarray s m) (some (Json.arr elems)) = none := by
  have harr := zparseArrWith_fails (fun x => zparse s (some x)) elems e he hf
  simp [zparse, harr]

theorem zparse_optnull_arr (s : ZodSchema) (elems : JsonArr) :
    zparse (ZodSchema.zoptional (ZodSchema.znullable s)) (some (Json.arr elems))
      = zparse s (some (Json.arr elems)) := rfl

theorem fieldToZod_blocks_single (uid : String) (dn : Option String) (mand mult : Bool)
    (enumC : Option (List String)) (schemaF : FieldList) (b0 : ContentstackBlock)
    (fm : FieldMeta) (fmt sd ed : Option String) (maxI : Option Nat) (so : SchemaOptions) :
    fieldToZod (ContentstackField.mk uid "blocks" dn mand mult enumC schemaF
        (BlockList.cons b0 BlockList.nil) fm fmt sd ed maxI) so
      = (if mand then ZodSchema.zarray (blockToZod b0 so) none
         else ZodSchema.zoptional (ZodSchema.znullable
           (ZodSchema.zarray (blockToZod b0 so) none))) := by
  cases mand <;> cases mult <;> rfl

theorem fieldToZod_blocks_multi (uid : String) (dn : Option String) (mand mult : Bool)
    (enumC : Option (List String)) (schemaF : FieldList) (b0 b1 : ContentstackBlock)
    (rest : BlockList) (fm : FieldMeta) (fmt sd ed : Option String) (maxI : Option Nat)
    (so : SchemaOptions) :
    fieldToZod (ContentstackField.mk uid "blocks" dn mand mult enumC schemaF
        (BlockList.cons b0 (BlockList.cons b1 rest)) fm fmt sd ed maxI) so
      = (if mand then
           ZodSchema.zarray (ZodSchema.zunion
             (blocksToZodList (BlockList.cons b0 (BlockList.cons b1 rest)) so)) none
         else ZodSchema.zoptional (ZodSchema.znullable
           (ZodSchema.zarray (ZodSchema.zunion
             (blocksToZodList (BlockList.cons b0 (BlockList.cons b1 rest)) so)) none))) := by
  cases mand <;> cases mult <;> rfl

/-- Claim C4 (amended): for a blocks field with at least one declared block
definition, the full validator rejects an array containing an element none
of whose keys is a declared block uid (no matching variant); with no
declared definitions the value is only checked to be an array (see the
counterexample). -/
theorem claim_C4_amended (f : ContentstackField) (so : SchemaOptions)
    (elems : JsonArr) (e : Json)
    (hdt : f.data_type = "blocks") (hbl : f.blocksF ≠ BlockList.nil)
    (he : e ∈ elems.toList)
    (hnk : ∀ b ∈ f.blocksF.toList, jsonHasKey e b.uid = false) :
    zparse (fieldToZod f so) (some (Json.arr elems)) = none := by
  rcases f with ⟨uid, dt, dn, mand, mult, enumC, schemaF, blocksF, fm, fmt, sd, ed, maxI⟩
  simp only [ContentstackField.data_type] at hdt
  simp only [ContentstackField.blocksF] at hbl hnk
  subst hdt
  cases blocksF with
  | nil => exact absurd rfl hbl
  | cons b0 rest =>
      cases rest with
      | nil =>
          rw [fieldToZod_blocks_single]
          have hfail : zparse (ZodSchema.zarray (blockToZod b0 so) none)
              (some (Json.arr elems)) = none :=
            zparse_zarray_elem_fails _ _ _ e he
              (blockToZod_rejects b0 so e (hnk b0 (List.Mem.head _)))
          cases mand
          · rw [if_neg (by simp), zparse_optnull_arr]
            exact hfail
          · rw [if_pos rfl]
            exact hfail
      | cons b1 rest2 =>
          rw [fieldToZod_blocks_multi]
          have hfail : zparse (ZodSchema.zarray (ZodSchema.zunion
              (blocksToZodList (BlockList.cons b0 (BlockList.cons b1 rest2)) so)) none)
              (some (Json.arr elems)) = none := by
            apply zparse_zarray_elem_fails _ _ _ e he
            show zparseUnion _ (some e) = none
            apply zparseUnion_rejects
            intro s hs
            obtain ⟨b, hb, rfl⟩ := blocksToZodList_member _ so s hs
            exact blockToZod_rejects b so e (hnk b hb)
          cases mand
          · rw [if_neg (by simp), zparse_optnull_arr]
            exact hfail
          · rw [if_pos rfl]
            exact hfail

/-- Claim C4 witness: the amended rejection at a concrete blocks field with
one declared definition and an unmatched element. -/
theorem claim_C4_amended_witness :
    zparse (fieldToZod fC4 defaultSchemaOpts) (some (Json.arr elemsC4)) = none :=
  claim_C4_amended fC4 defaultSchemaOpts elemsC4 (jO [("foo", Json.num 1)])
    rfl (by intro h; exact absurd h (by simp [fC4, ContentstackField.blocksF, bL]))
    (List.Mem.head _) (by intro b hb; simp [fC4, ContentstackField.blocksF, bL, BlockList.toList] at hb; subst hb; rfl)

theorem removeKeys_lookup_none : ∀ (kvs : JsonObj) (rem : List String) (k : String),
    rem.contains k = true → lookupJ (removeKeysObj kvs rem) k = none
  | JsonObj.nil, _, _, _ => rfl
  | JsonObj.cons k0 v tl, rem, k, hk => by
      unfold removeKeysObj
      cases h0 : rem.contains k0 with
      | true =>
          rw [if_pos rfl]
          exact removeKeys_lookup_none tl rem k hk
      | false =>
          rw [if_neg (by simp)]
          have hne : ¬(k0 = k) := by
            intro he
            rw [he, hk] at h0
            cases h0
          rw [lookupJ, if_neg hne]
          exact removeKeys_lookup_none tl rem k hk

theorem removeKeys_lookup_keep : ∀ (kvs : JsonObj) (rem : List String) (k : String),
    rem.contains k = false → lookupJ (removeKeysObj kvs rem) k = lookupJ kvs k
  | JsonObj.nil, _, _, _ => rfl
  | JsonObj.cons k0 v tl, rem, k, hk => by
      unfold removeKeysObj
      cases h0 : rem.contains k0 with
      | true =>
          rw [if_pos rfl]
          have hne : ¬(k0 = k) := by
            intro he
            rw [he, hk] at h0
            cases h0
          rw [show lookupJ (JsonObj.cons k0 v tl) k = lookupJ tl k by rw [lookupJ, if_neg hne]]
          exact removeKeys_lookup_keep tl rem k hk
      | false =>
          rw [if_neg (by simp)]
          by_cases hke : k0 = k
          · rw [lookupJ, if_pos hke, lookupJ, if_pos hke]
          · rw [lookupJ, if_neg hke, lookupJ, if_neg hke]
            exact removeKeys_lookup_keep tl rem k hk

theorem shapeAllOpt_accepts : ∀ (sh : ZodShape) (kvs kvs' : JsonObj),
    (∀ k, lookupJ kvs' k = none ∨ lookupJ kvs' k = lookupJ kvs k) →
    (zparseShape sh kvs).isSome = true →
    (zparseShape (shapeAllOpt sh) kvs').isSome = true
  | ZodShape.nil, _, _, _, _ => rfl
  | ZodShape.cons k s tl, kvs, kvs', hsub, h => by
      cases h1 : zparse s (lookupJ kvs k) with
      | none => simp [zparseShape, h1] at h
      | some r =>
        cases h2 : zparseShape tl kvs with
        | none => simp [zparseShape, h1, h2] at h
        | some rest =>
          have ih := shapeAllOpt_accepts tl kvs kvs' hsub (by simp [h2])
          have hhead : (zparse (ZodSchema.zoptional s) (lookupJ kvs' k)).isSome = true := by
            rcases hsub k with hk | hk
            · rw [hk]; rfl
            · rw [hk]
              cases hl : lookupJ kvs k with
              | none => rfl
              | some v =>
                  rw [show zparse (ZodSchema.zoptional s) (some v) = zparse s (some v) from rfl]
                  rw [hl] at h1
                  simp [h1]
          cases h3 : zparse (ZodSchema.zoptional s) (lookupJ kvs' k) with
          | none => rw [h3] at hhead; simp at hhead
          | some r' =>
            cases h4 : zparseShape (shapeAllOpt tl) kvs' with
            | none => rw [h4] at ih; simp at ih
            | some rest' => simp [shapeAllOpt, zparseShape, h3, h4]

/-- Claim C2: the draft validator is a monotone relaxation of the full
validator — any entry the full validator accepts is accepted by the draft
validator, and so is the entry obtained by removing any subset of
top-level mandatory field uids from it. -/
theorem claim_C2_draft_monotone (ct : ContentstackContentType) (so : SchemaOptions)
    (E : Json) (w : Option Json) (rem : List String)
    (hfull : zparse (contentTypeToZod ct so) (some E) = some w)
    (_hrem : ∀ u ∈ rem, u ∈ mandatoryUids ct.schema) :
    (zparse (contentTypeToDraftZod ct so) (some E)).isSome = true ∧
    (zparse (contentTypeToDraftZod ct so) (some (removeKeys E rem))).isSome = true := by
  cases E with
  | obj kvs =>
      have hred : zparse (contentTypeToZod ct so) (some (Json.obj kvs))
          = (match zparseShape (shapeOfFields ZodShape.nil ct.schema so) kvs with
             | none => none
             | some processed => some (some (Json.obj processed))) := rfl
      cases hps : zparseShape (shapeOfFields ZodShape.nil ct.schema so) kvs with
      | none => rw [hred, hps] at hfull; cases hfull
      | some processed =>
        have hdraft : ∀ (kvs0 : JsonObj),
            (zparseShape (shapeAllOpt (shapeOfFields ZodShape.nil ct.schema so)) kvs0).isSome
              = true →
            (zparse (contentTypeToDraftZod ct so) (some (Json.obj kvs0))).isSome = true := by
          intro kvs0 hacc
          have hr : zparse (contentTypeToDraftZod ct so) (some (Json.obj kvs0))
              = (match zparseShape (shapeAllOpt (shapeOfFields ZodShape.nil ct.schema so)) kvs0 with
                 | none => none
                 | some pr => some (some (Json.obj pr))) := rfl
          cases hx : zparseShape (shapeAllOpt (shapeOfFields ZodShape.nil ct.schema so)) kvs0 with
          | none => rw [hx] at hacc; simp at hacc
          | some pr => rw [hr, hx]; rfl
        constructor
        · exact hdraft kvs (shapeAllOpt_accepts _ kvs kvs (fun _ => Or.inr rfl) (by simp [hps]))
        · show (zparse (contentTypeToDraftZod ct so)
              (some (Json.obj (removeKeysObj kvs rem)))).isSome = true
          apply hdraft
          apply shapeAllOpt_accepts _ kvs _ _ (by simp [hps])
          intro k
          cases hk : rem.contains k with
          | true => exact Or.inl (removeKeys_lookup_none kvs rem k hk)
          | false => exact Or.inr (removeKeys_lookup_keep kvs rem k hk)
  | null =>
      exact absurd hfull
        (by rw [show zparse (contentTypeToZod ct so) (some Json.null) = none from rfl]; simp)
  | bool b =>
      exact absurd hfull
        (by rw [show zparse (contentTypeToZod ct so) (some (Json.bool b)) = none from rfl]; simp)
  | num n =>
      exact absurd hfull
        (by rw [show zparse (contentTypeToZod ct so) (some (Json.num n)) = none from rfl]; simp)
  | str s =>
      exact absurd hfull
        (by rw [show zparse (contentTypeToZod ct so) (some (Json.str s)) = none from rfl]; simp)
  | arr l =>
      exact absurd hfull
        (by rw [show zparse (contentTypeToZod ct so) (some (Json.arr l)) = none from rfl]; simp)

/-- Claim C2 witness: the monotone relaxation at a concrete content type,
entry and removed mandatory field. -/
theorem claim_C2_witness :
    (zparse (contentTypeToDraftZod ctC2 defaultSchemaOpts)
        (some (jO [("title", Json.str "x"), ("subtitle", Json.str "y")]))).isSome = true ∧
    (zparse (contentTypeToDraftZod ctC2 defaultSchemaOpts)
        (some (removeKeys (jO [("title", Json.str "x"), ("subtitle", Json.str "y")])
          ["title"]))).isSome = true :=
  claim_C2_draft_monotone ctC2 defaultSchemaOpts
    (jO [("title", Json.str "x"), ("subtitle", Json.str "y")])
    (some (jO [("title", Json.str "x"), ("subtitle", Json.str "y")])) ["title"]
    rfl (by intro u hu; simp at hu; subst hu; exact List.Mem.head _)

set_option linter.unusedVariables false

theorem fieldToZod_mand_null (f : ContentstackField) (so : SchemaOptions)
    (hty : (["text", "number", "boolean", "isodate", "file", "link", "reference",
             "global_field", "taxonomy", "group", "blocks"].contains f.data_type) = true)
    (hm : f.mandatory = true) :
    zparse (fieldToZod f so) (some Json.null) = none := by
  rcases f with ⟨uid, dt, dn, mand, mult, enumC, schemaF, blocksF, fm, fmt, sd, ed, maxI⟩
  simp only [ContentstackField.data_type] at hty
  simp only [ContentstackField.mandatory] at hm
  subst hm
  simp at hty
  rcases fm with ⟨fdesc, frich, fjrte, fml⟩
  rcases hty with rfl | rfl | rfl | rfl | rfl | rfl | rfl | rfl | rfl | rfl | rfl
  -- text
  · cases mult
    · cases frich
      · rcases enumC with _ | ⟨_ | ⟨c, cs⟩⟩
        · rcases fmt with _ | ⟨f0⟩
          · rfl
          · by_cases hf : f0 = ""
            · subst hf; rfl
            · show zparse (if f0 = "" then ZodSchema.zstring
                  else ZodSchema.zrefineStr (regexTest f0)) (some Json.null) = none
              rw [if_neg hf]
              rfl
        · rcases fmt with _ | ⟨f0⟩
          · rfl
          · by_cases hf : f0 = ""
            · subst hf; rfl
            · show zparse (if f0 = "" then ZodSchema.zstring
                  else ZodSchema.zrefineStr (regexTest f0)) (some Json.null) = none
              rw [if_neg hf]
              rfl
        · rfl
      · rfl
    · rfl
  -- number
  · cases mult <;> rfl
  -- boolean
  · cases mult <;> rfl
  -- isodate
  · cases mult
    · by_cases hc : (optStrTruthy sd || optStrTruthy ed) = true
      · show zparse (if optStrTruthy sd || optStrTruthy ed then
            ZodSchema.zrefineStr (fun v => zodDatetimeRe v && dateRangeOk sd ed v)
          else IsoDateSchema) (some Json.null) = none
        rw [if_pos hc]
        rfl
      · show zparse (if optStrTruthy sd || optStrTruthy ed then
            ZodSchema.zrefineStr (fun v => zodDatetimeRe v && dateRangeOk sd ed v)
          else IsoDateSchema) (some Json.null) = none
        rw [if_neg hc]
        rfl
    · rfl
  -- file
  · cases mult
    · by_cases hup : so.mode = some "upsert"
      · show zparse (if so.mode = some "upsert" then ZodSchema.zstring else AssetSchema)
            (some Json.null) = none
        rw [if_pos hup]
        rfl
      · show zparse (if so.mode = some "upsert" then ZodSchema.zstring else AssetSchema)
            (some Json.null) = none
        rw [if_neg hup]
        rfl
    · rfl
  -- link
  · cases mult <;> rfl
  -- reference
  · cases mult <;> rfl
  -- global_field
  · cases mult <;> rfl
  -- taxonomy
  · cases mult <;> rfl
  -- group
  · cases mult
    · rfl
    · rcases maxI with _ | ⟨m⟩
      · rfl
      · by_cases hm0 : 0 < m
        · show zparse (if 0 < m then
              ZodSchema.zarray (ZodSchema.zobject
                (shapeSet (shapeOfFields ZodShape.nil schemaF so) "_metadata" metadataZ) true)
                (some m)
            else ZodSchema.zarray (ZodSchema.zobject
                (shapeSet (shapeOfFields ZodShape.nil schemaF so) "_metadata" metadataZ) true)
                none) (some Json.null) = none
          rw [if_pos hm0]
          rfl
        · show zparse (if 0 < m then
              ZodSchema.zarray (ZodSchema.zobject
                (shapeSet (shapeOfFields ZodShape.nil schemaF so) "_metadata" metadataZ) true)
                (some m)
            else ZodSchema.zarray (ZodSchema.zobject
                (shapeSet (shapeOfFields ZodShape.nil schemaF so) "_metadata" metadataZ) true)
                none) (some Json.null) = none
          rw [if_neg hm0]
          rfl
  -- blocks
  · cases mult
    · cases blocksF with
      | nil => rfl
      | cons b0 rest => cases rest <;> rfl
    · cases blocksF with
      | nil => rfl
      | cons b0 rest => cases rest <;> rfl

/-- Claim C9 (amended): for every field whose data type has a
non-permissive base validator (text, number, boolean, isodate, file, link,
reference, global_field, taxonomy, group, blocks — a plain `json` field
maps to `z.any()` and is the exception, see the counterexample), a
mandatory field under the draft relaxation (`.partial()` wraps its
validator in `.optional()`) accepts absence but rejects an explicit null,
while a non-mandatory field accepts both null and absence in either mode
via `.nullable().optional()`. -/
theorem claim_C9_amended (f : ContentstackField) (so : SchemaOptions)
    (hty : (["text", "number", "boolean", "isodate", "file", "link", "reference",
             "global_field", "taxonomy", "group", "blocks"].contains f.data_type) = true) :
    (f.mandatory = true →
        zparse (ZodSchema.zoptional (fieldToZod f so)) (some Json.null) = none ∧
        zparse (ZodSchema.zoptional (fieldToZod f so)) none = some none) ∧
    (f.mandatory = false →
        (zparse (fieldToZod f so) (some Json.null)).isSome = true ∧
        (zparse (fieldToZod f so) none).isSome = true) := by
  constructor
  · intro hm
    constructor
    · show zparse (fieldToZod f so) (some Json.null) = none
      exact fieldToZod_mand_null f so hty hm
    · rfl
  · intro hm
    rcases f with ⟨uid, dt, dn, mand, mult, enumC, schemaF, blocksF, fm, fmt, sd, ed, maxI⟩
    simp only [ContentstackField.mandatory] at hm
    subst hm
    exact ⟨rfl, rfl⟩

/-- Claim C9 witness: the amended statement at a concrete mandatory text
field. -/
theorem claim_C9_amended_witness :
    zparse (ZodSchema.zoptional (fieldToZod (mkPrim "t" "text" none true) defaultSchemaOpts))
        (some Json.null) = none ∧
    zparse (ZodSchema.zoptional (fieldToZod (mkPrim "t" "text" none true) defaultSchemaOpts))
        none = some none :=
  (claim_C9_amended (mkPrim "t" "text" none true) defaultSchemaOpts rfl).1 rfl

theorem zsizeS_pos : ∀ (s : ZodSchema), 1 ≤ zsizeS s := by
  intro s
  cases s <;> simp [zsizeS]

theorem shapeEntries_size : ∀ (sh : ZodShape) (p : String × ZodSchema),
    p ∈ shapeEntries sh → zsizeS p.2 ≤ zsizeShape sh
  | ZodShape.nil, p, hp => by simp [shapeEntries] at hp
  | ZodShape.cons k s tl, p, hp => by
      simp only [shapeEntries, List.mem_cons] at hp
      rcases hp with rfl | hp
      · simp [zsizeShape]
        omega
      · have := shapeEntries_size tl p hp
        simp [zsizeShape]
        omega

theorem zodListMem_size : ∀ (l : ZodList) (s : ZodSchema),
    s ∈ l.toList → zsizeS s ≤ zsizeList l
  | ZodList.nil, s, hs => by simp [ZodList.toList] at hs
  | ZodList.cons s0 tl, s, hs => by
      simp only [ZodList.toList, List.mem_cons] at hs
      rcases hs with rfl | hs
      · simp [zsizeList]
        omega
      · have := zodListMem_size tl s hs
        simp [zsizeList]
        omega

theorem zwfShape_entries : ∀ (sh : ZodShape) (p : String × ZodSchema),
    zwfShape sh = true → p ∈ shapeEntries sh → zwfS p.2 = true
  | ZodShape.nil, p, _, hp => by simp [shapeEntries] at hp
  | ZodShape.cons k s tl, p, h, hp => by
      simp only [zwfShape, Bool.and_eq_true] at h
      simp only [shapeEntries, List.mem_cons] at hp
      rcases hp with rfl | hp
      · exact h.1
      · exact zwfShape_entries tl p h.2 hp

theorem zwfList_mem : ∀ (l : ZodList) (s : ZodSchema),
    zwfList l = true → s ∈ l.toList → zwfS s = true
  | ZodList.nil, s, _, hs => by simp [ZodList.toList] at hs
  | ZodList.cons s0 tl, s, h, hs => by
      simp only [zwfList, Bool.and_eq_true] at h
      simp only [ZodList.toList, List.mem_cons] at hs
      rcases hs with rfl | hs
      · exact h.1
      · exact zwfList_mem tl s h.2 hs

theorem zparseShape_of_entries : ∀ (sh : ZodShape) (kvs : JsonObj),
    (∀ p ∈ shapeEntries sh, (zparse p.2 (lookupJ kvs p.1)).isSome = true) →
    (zparseShape sh kvs).isSome = true
  | ZodShape.nil, _, _ => rfl
  | ZodShape.cons k s tl, kvs, h => by
      have h1 := h (k, s) (List.Mem.head _)
      have h2 := zparseShape_of_entries tl kvs (fun p hp => h p (List.mem_cons_of_mem _ hp))
      cases hx : zparse s (lookupJ kvs k) with
      | none => rw [hx] at h1; simp at h1
      | some r =>
          cases hy : zparseShape tl kvs with
          | none => rw [hy] at h2; simp at h2
          | some rest => simp [zparseShape, hx, hy]

theorem zparseShape_no_key : ∀ (sh : ZodShape) (kvs out : JsonObj) (k : String),
    zparseShape sh kvs = some out → shapeHasKey sh k = false → lookupJ out k = none
  | ZodShape.nil, kvs, out, k, h, _ => by
      simp only [zparseShape] at h
      cases h
      rfl
  | ZodShape.cons k0 s tl, kvs, out, k, h, hk => by
      simp only [shapeHasKey, Bool.or_eq_false_iff] at hk
      obtain ⟨hk0, hktl⟩ := hk
      have hne : ¬(k0 = k) := by
        intro he
        rw [he] at hk0
        simp at hk0
      cases hx : zparse s (lookupJ kvs k0) with
      | none => rw [zparseShape, hx] at h; cases h
      | some r =>
          cases hy : zparseShape tl kvs with
          | none => rw [zparseShape, hx, hy] at h; cases h
          | some rest =>
              rw [zparseShape, hx, hy] at h
              cases r with
              | none =>
                  cases h
                  exact zparseShape_no_key tl kvs rest k hy hktl
              | some w =>
                  cases h
                  rw [lookupJ, if_neg hne]
                  exact zparseShape_no_key tl kvs rest k hy hktl

theorem shapeEntries_hasKey : ∀ (sh : ZodShape) (p : String × ZodSchema),
    p ∈ shapeEntries sh → shapeHasKey sh p.1 = true
  | ZodShape.nil, p, hp => by simp [shapeEntries] at hp
  | ZodShape.cons k0 s tl, p, hp => by
      simp only [shapeEntries, List.mem_cons] at hp
      rcases hp with rfl | hp
      · simp [shapeHasKey]
      · simp [shapeHasKey, shapeEntries_hasKey tl p hp]

theorem zparseShape_entry_out : ∀ (sh : ZodShape) (kvs out : JsonObj),
    shapeKeysNodup sh = true → zparseShape sh kvs = some out →
    ∀ p ∈ shapeEntries sh, ∃ r, zparse p.2 (lookupJ kvs p.1) = some r ∧ lookupJ out p.1 = r
  | ZodShape.nil, kvs, out, _, h, p, hp => by simp [shapeEntries] at hp
  | ZodShape.cons k0 s tl, kvs, out, hnd, h, p, hp => by
      simp only [shapeKeysNodup, Bool.and_eq_true] at hnd
      obtain ⟨hk0, hndtl⟩ := hnd
      cases hx : zparse s (lookupJ kvs k0) with
      | none => rw [zparseShape, hx] at h; cases h
      | some r =>
          cases hy : zparseShape tl kvs with
          | none => rw [zparseShape, hx, hy] at h; cases h
          | some rest =>
              rw [zparseShape, hx, hy] at h
              simp only [shapeEntries, List.mem_cons] at hp
              rcases hp with rfl | hp
              · refine ⟨r, hx, ?_⟩
                cases r with
                | none =>
                    cases h
                    exact zparseShape_no_key tl kvs rest k0 hy (by simpa using hk0)
                | some w =>
                    cases h
                    rw [lookupJ, if_pos rfl]
              · obtain ⟨r', hr', hl'⟩ := zparseShape_entry_out tl kvs rest hndtl hy p hp
                refine ⟨r', hr', ?_⟩
                cases r with
                | none => cases h; exact hl'
                | some w =>
                    cases h
                    have hne : ¬(k0 = p.1) := by
                      intro he
                      have hmem := shapeEntries_hasKey tl p hp
                      rw [← he] at hmem
                      rw [hmem] at hk0
                      simp at hk0
                    rw [lookupJ, if_neg hne]
                    exact hl'

theorem objWithoutKeys_no_shape_key : ∀ (kvs : JsonObj) (sh : ZodShape) (k : String),
    shapeHasKey sh k = true → lookupJ (objWithoutKeys kvs sh) k = none
  | JsonObj.nil, _, _, _ => rfl
  | JsonObj.cons k0 v tl, sh, k, hk => by
      unfold objWithoutKeys
      by_cases h0 : shapeHasKey sh k0 = true
      · rw [if_pos h0]
        exact objWithoutKeys_no_shape_key tl sh k hk
      · rw [if_neg h0]
        have hne : ¬(k0 = k) := by
          intro he
          rw [he, hk] at h0
          exact h0 rfl
        rw [lookupJ, if_neg hne]
        exact objWithoutKeys_no_shape_key tl sh k hk

theorem lookupJ_objAppend : ∀ (a b : JsonObj) (k : String),
    lookupJ (objAppend a b) k
      = (match lookupJ a k with | some v => some v | none => lookupJ b k)
  | JsonObj.nil, b, k => rfl
  | JsonObj.cons k0 v tl, b, k => by
      unfold objAppend
      by_cases h0 : k0 = k
      · rw [lookupJ, if_pos h0, lookupJ, if_pos h0]
      · rw [lookupJ, if_neg h0, lookupJ, if_neg h0]
        exact lookupJ_objAppend tl b k

theorem zparseArrWith_length : ∀ (p : Json → Option (Option Json)) (elems out : JsonArr),
    zparseArrWith p elems = some out → out.length ≤ elems.length
  | _, JsonArr.nil, out, h => by
      simp only [zparseArrWith] at h
      cases h
      simp [JsonArr.length]
  | p, JsonArr.cons e tl, out, h => by
      unfold zparseArrWith at h
      cases hx : p e with
      | none => rw [hx] at h; cases h
      | some r =>
          cases hy : zparseArrWith p tl with
          | none => rw [hx, hy] at h; cases r <;> cases h
          | some out' =>
              rw [hx, hy] at h
              have ih := zparseArrWith_length p tl out' hy
              cases r with
              | none =>
                  cases h
                  simp [JsonArr.length]
                  omega
              | some w =>
                  cases h
                  simp [JsonArr.length]
                  omega

theorem zparseArrWith_origin : ∀ (p : Json → Option (Option Json)) (elems out : JsonArr),
    zparseArrWith p elems = some out →
    ∀ w ∈ out.toList, ∃ e ∈ elems.toList, p e = some (some w)
  | _, JsonArr.nil, out, h => by
      simp only [zparseArrWith] at h
      cases h
      intro w hw
      simp [JsonArr.toList] at hw
  | p, JsonArr.cons e tl, out, h => by
      unfold zparseArrWith at h
      cases hx : p e with
      | none => rw [hx] at h; cases h
      | some r =>
          cases hy : zparseArrWith p tl with
          | none => rw [hx, hy] at h; cases r <;> cases h
          | some out' =>
              rw [hx, hy] at h
              have ih := zparseArrWith_origin p tl out' hy
              cases r with
              | none =>
                  cases h
                  intro w hw
                  obtain ⟨e', he', hp'⟩ := ih w hw
                  exact ⟨e', List.mem_cons_of_mem _ he', hp'⟩
              | some w0 =>
                  cases h
                  intro w hw
                  simp only [JsonArr.toList, List.mem_cons] at hw
                  rcases hw with rfl | hw
                  · exact ⟨e, List.Mem.head _, hx⟩
                  · obtain ⟨e', he', hp'⟩ := zparseArrWith_origin p tl out' hy w hw
                    exact ⟨e', List.mem_cons_of_mem _ he', hp'⟩

theorem zparseArrWith_of_all : ∀ (p : Json → Option (Option Json)) (elems : JsonArr),
    (∀ e ∈ elems.toList, (p e).isSome = true) →
    (zparseArrWith p elems).isSome = true
  | _, JsonArr.nil, _ => rfl
  | p, JsonArr.cons e tl, h => by
      have h1 := h e (List.Mem.head _)
      have h2 := zparseArrWith_of_all p tl (fun e' he' => h e' (List.mem_cons_of_mem _ he'))
      cases hx : p e with
      | none => rw [hx] at h1; simp at h1
      | some r =>
          cases hy : zparseArrWith p tl with
          | none => rw [hy] at h2; simp at h2
          | some out' =>
              unfold zparseArrWith
              rw [hx, hy]
              cases r <;> rfl

theorem zparseUnion_origin : ∀ (l : ZodList) (v : Option Json) (r : Option Json),
    zparseUnion l v = some r → ∃ s ∈ l.toList, zparse s v = some r
  | ZodList.nil, v, r, h => by cases h
  | ZodList.cons s0 tl, v, r, h => by
      unfold zparseUnion at h
      cases hx : zparse s0 v with
      | some r0 =>
          rw [hx] at h
          cases h
          exact ⟨s0, List.Mem.head _, hx⟩
      | none =>
          rw [hx] at h
          obtain ⟨s', hs', hp'⟩ := zparseUnion_origin tl v r h
          exact ⟨s', List.mem_cons_of_mem _ hs', hp'⟩

theorem zparseUnion_of_mem : ∀ (l : ZodList) (v : Option Json) (s : ZodSchema),
    s ∈ l.toList → (zparse s v).isSome = true → (zparseUnion l v).isSome = true
  | ZodList.nil, v, s, hs, _ => by simp [ZodList.toList] at hs
  | ZodList.cons s0 tl, v, s, hs, h => by
      unfold zparseUnion
      cases hx : zparse s0 v with
      | some r0 => rfl
      | none =>
          simp only [ZodList.toList, List.mem_cons] at hs
          rcases hs with rfl | hs
          · rw [hx] at h; simp at h
          · exact zparseUnion_of_mem tl v s hs h

theorem zparse_zarray_red (s : ZodSchema) (maxI : Option Nat) (l : JsonArr) :
    zparse (ZodSchema.zarray s maxI) (some (Json.arr l))
      = (match zparseArrWith (fun e => zparse s (some e)) l with
         | none => none
         | some out =>
           (match maxI with
            | some m => if l.length ≤ m then some (some (Json.arr out)) else none
            | none => some (some (Json.arr out)))) := rfl

theorem zparse_zobject_red (sh : ZodShape) (pass : Bool) (kvs : JsonObj) :
    zparse (ZodSchema.zobject sh pass) (some (Json.obj kvs))
      = (match zparseShape sh kvs with
         | none => none
         | some processed =>
             if pass then
               some (some (Json.obj (objAppend processed (objWithoutKeys kvs sh))))
             else some (some (Json.obj processed))) := rfl

theorem zparse_some_out_aux : ∀ (n : Nat) (s : ZodSchema), zsizeS s ≤ n →
    ∀ (v : Json) (r : Option Json), zparse s (some v) = some r → ∃ w, r = some w := by
  intro n
  induction n with
  | zero =>
      intro s hs
      have := zsizeS_pos s
      omega
  | succ n ih =>
      intro s hs v r h
      cases s with
      | zstring => cases v <;> simp [zparse] at h <;> exact ⟨_, h.symm⟩
      | znumber => cases v <;> simp [zparse] at h <;> exact ⟨_, h.symm⟩
      | zboolean => cases v <;> simp [zparse] at h <;> exact ⟨_, h.symm⟩
      | zany =>
          simp [zparse] at h
          exact ⟨v, h.symm⟩
      | zliteral lit =>
          cases v <;> simp [zparse] at h
          next s0 => exact ⟨_, h.2.symm⟩
      | zenum vals =>
          cases v <;> simp [zparse] at h
          next s0 => exact ⟨_, h.2.symm⟩
      | zrefineStr p =>
          cases v <;> simp [zparse] at h
          next s0 => exact ⟨_, h.2.symm⟩
      | zrteNode =>
          simp [zparse] at h
          exact ⟨_, h.2.symm⟩
      | zrecordAny => cases v <;> simp [zparse] at h <;> exact ⟨_, h.symm⟩
      | zoptional s' =>
          simp only [zsizeS] at hs
          exact ih s' (by omega) v r h
      | znullable s' =>
          simp only [zsizeS] at hs
          cases v with
          | null =>
              simp [zparse] at h
              exact ⟨_, h.symm⟩
          | bool b => exact ih s' (by omega) _ r h
          | num m => exact ih s' (by omega) _ r h
          | str s0 => exact ih s' (by omega) _ r h
          | arr l => exact ih s' (by omega) _ r h
          | obj kvs => exact ih s' (by omega) _ r h
      | zarray s' maxI =>
          cases v with
          | arr l =>
              rw [zparse_zarray_red] at h
              cases hx : zparseArrWith (fun e => zparse s' (some e)) l with
              | none => rw [hx] at h; cases h
              | some out =>
                  rw [hx] at h
                  cases maxI with
                  | none => cases h; exact ⟨_, rfl⟩
                  | some m =>
                      by_cases hlen : l.length ≤ m
                      · simp only [if_pos hlen] at h
                        cases h
                        exact ⟨_, rfl⟩
                      · simp only [if_neg hlen] at h
                        cases h
          | null =>
              exact absurd h
                (by rw [show zparse (ZodSchema.zarray s' maxI) (some Json.null) = none from rfl]
                    simp)
          | bool b =>
              exact absurd h
                (by rw [show zparse (ZodSchema.zarray s' maxI) (some (Json.bool b)) = none from rfl]
                    simp)
          | num m0 =>
              exact absurd h
                (by rw [show zparse (ZodSchema.zarray s' maxI) (some (Json.num m0)) = none from rfl]
                    simp)
          | str s0 =>
              exact absurd h
                (by rw [show zparse (ZodSchema.zarray s' maxI) (some (Json.str s0)) = none from rfl]
                    simp)
          | obj kvs =>
              exact absurd h
                (by rw [show zparse (ZodSchema.zarray s' maxI) (some (Json.obj kvs)) = none from rfl]
                    simp)
      | zobject sh pass =>
          cases v with
          | obj kvs =>
              rw [zparse_zobject_red] at h
              cases hx : zparseShape sh kvs with
              | none => rw [hx] at h; cases h
              | some processed =>
                  rw [hx] at h
                  cases pass with
                  | true =>
                      simp only [if_true] at h
                      cases h
                      exact ⟨_, rfl⟩
                  | false =>
                      simp only [if_false] at h
                      cases h
                      exact ⟨_, rfl⟩
          | null =>
              exact absurd h
                (by rw [show zparse (ZodSchema.zobject sh pass) (some Json.null) = none from rfl]
                    simp)
          | bool b =>
              exact absurd h
                (by rw [show zparse (ZodSchema.zobject sh pass) (some (Json.bool b)) = none from rfl]
                    simp)
          | num m0 =>
              exact absurd h
                (by rw [show zparse (ZodSchema.zobject sh pass) (some (Json.num m0)) = none from rfl]
                    simp)
          | str s0 =>
              exact absurd h
                (by rw [show zparse (ZodSchema.zobject sh pass) (some (Json.str s0)) = none from rfl]
                    simp)
          | arr l =>
              exact absurd h
                (by rw [show zparse (ZodSchema.zobject sh pass) (some (Json.arr l)) = none from rfl]
                    simp)
      | zunion l =>
          simp only [zsizeS] at hs
          have h' : zparseUnion l (some v) = some r := h
          obtain ⟨s', hs', hp'⟩ := zparseUnion_origin l (some v) r h'
          have hsz := zodListMem_size l s' hs'
          exact ih s' (by omega) v r hp'

theorem zparse_none_out_aux : ∀ (n : Nat) (s : ZodSchema), zsizeS s ≤ n →
    ∀ (r : Option Json), zparse s none = some r → r = none := by
  intro n
  induction n with
  | zero =>
      intro s hs
      have := zsizeS_pos s
      omega
  | succ n ih =>
      intro s hs r h
      cases s with
      | zstring => cases h
      | znumber => cases h
      | zboolean => cases h
      | zany => cases h; rfl
      | zliteral lit => cases h
      | zenum vals => cases h
      | zrefineStr p => cases h
      | zrteNode => cases h
      | zrecordAny => cases h
      | zoptional s' => cases h; rfl
      | znullable s' =>
          simp only [zsizeS] at hs
          exact ih s' (by omega) r h
      | zarray s' maxI => cases h
      | zobject sh pass => cases h
      | zunion l =>
          simp only [zsizeS] at hs
          obtain ⟨s', hs', hp'⟩ := zparseUnion_origin l none r h
          have hsz := zodListMem_size l s' hs'
          exact ih s' (by omega) r hp'

theorem zparse_some_out (s : ZodSchema) (v : Json) (r : Option Json)
    (h : zparse s (some v) = some r) : ∃ w, r = some w :=
  zparse_some_out_aux (zsizeS s) s le_rfl v r h

theorem zparse_none_out (s : ZodSchema) (r : Option Json)
    (h : zparse s none = some r) : r = none :=
  zparse_none_out_aux (zsizeS s) s le_rfl r h

theorem zparse_reaccepts_aux : ∀ (n : Nat) (s : ZodSchema), zsizeS s ≤ n → zwfS s = true →
    ∀ (v? r : Option Json), zparse s v? = some r → (zparse s r).isSome = true := by
  intro n
  induction n with
  | zero =>
      intro s hs
      have := zsizeS_pos s
      omega
  | succ n ih =>
      intro s hs hwf v? r h
      cases v? with
      | none =>
          have hr := zparse_none_out s r h
          subst hr
          rw [h]
          rfl
      | some v =>
          obtain ⟨w, rfl⟩ := zparse_some_out s v r h
          cases s with
          | zstring =>
              cases v <;> simp [zparse] at h
              next s0 => rw [← h]; rfl
          | znumber =>
              cases v <;> simp [zparse] at h
              next n0 => rw [← h]; rfl
          | zboolean =>
              cases v <;> simp [zparse] at h
              next b0 => rw [← h]; rfl
          | zany =>
              simp [zparse] at h
              rw [← h]
              rfl
          | zliteral lit =>
              cases v <;> simp [zparse] at h
              next s0 =>
                obtain ⟨rfl, hw⟩ := h
                rw [← hw]
                simp [zparse]
          | zenum vals =>
              cases v <;> simp [zparse] at h
              next s0 =>
                obtain ⟨hmem, hw⟩ := h
                rw [← hw]
                simp [zparse, hmem]
          | zrefineStr p =>
              cases v <;> simp [zparse] at h
              next s0 =>
                obtain ⟨hp, hw⟩ := h
                rw [← hw]
                simp [zparse, hp]
          | zrteNode =>
              simp [zparse] at h
              obtain ⟨hp, hw⟩ := h
              rw [← hw]
              simp [zparse, hp]
          | zrecordAny =>
              cases v <;> simp [zparse] at h
              next kvs => rw [← h]; rfl
          | zoptional s' =>
              simp only [zsizeS] at hs
              simp only [zwfS] at hwf
              have hh : zparse s' (some v) = some (some w) := h
              have := ih s' (by omega) hwf (some v) (some w) hh
              exact this
          | znullable s' =>
              simp only [zsizeS] at hs
              simp only [zwfS] at hwf
              cases v with
              | null =>
                  have hw : some (Json.null) = w := by
                    have : (some (some Json.null) : Option (Option Json)) = some (some w) := h
                    simpa using this
                  rw [← hw]
                  rfl
              | bool b =>
                  have hh : zparse s' (some (Json.bool b)) = some (some w) := h
                  have hi := ih s' (by omega) hwf _ _ hh
                  cases w <;> first | rfl | exact hi
              | num m0 =>
                  have hh : zparse s' (some (Json.num m0)) = some (some w) := h
                  have hi := ih s' (by omega) hwf _ _ hh
                  cases w <;> first | rfl | exact hi
              | str s0 =>
                  have hh : zparse s' (some (Json.str s0)) = some (some w) := h
                  have hi := ih s' (by omega) hwf _ _ hh
                  cases w <;> first | rfl | exact hi
              | arr l =>
                  have hh : zparse s' (some (Json.arr l)) = some (some w) := h
                  have hi := ih s' (by omega) hwf _ _ hh
                  cases w <;> first | rfl | exact hi
              | obj kvs =>
                  have hh : zparse s' (some (Json.obj kvs)) = some (some w) := h
                  have hi := ih s' (by omega) hwf _ _ hh
                  cases w <;> first | rfl | exact hi
          | zarray s' maxI =>
              simp only [zsizeS] at hs
              simp only [zwfS] at hwf
              cases v with
              | arr l =>
                  rw [zparse_zarray_red] at h
                  cases hx : zparseArrWith (fun e => zparse s' (some e)) l with
                  | none => rw [hx] at h; cases h
                  | some out =>
                      rw [hx] at h
                      have hout : (zparseArrWith (fun e => zparse s' (some e)) out).isSome
                          = true := by
                        apply zparseArrWith_of_all
                        intro e he
                        obtain ⟨e0, he0, hp0⟩ := zparseArrWith_origin _ l out hx e he
                        exact ih s' (by omega) hwf (some e0) (some e) hp0
                      have hlen := zparseArrWith_length _ l out hx
                      have hw : w = Json.arr out := by
                        cases maxI with
                        | none => cases h; rfl
                        | some m =>
                            by_cases hle : l.length ≤ m
                            · simp only [if_pos hle] at h
                              cases h
                              rfl
                            · simp only [if_neg hle] at h
                              cases h
                      subst hw
                      rw [zparse_zarray_red]
                      cases hy : zparseArrWith (fun e => zparse s' (some e)) out with
                      | none => rw [hy] at hout; simp at hout
                      | some out2 =>
                          cases maxI with
                          | none => rfl
                          | some m =>
                              have hlm : l.length ≤ m := by
                                by_cases hle : l.length ≤ m
                                · exact hle
                                · simp only [if_neg hle] at h
                                  cases h
                              have : out.length ≤ m := le_trans hlen hlm
                              simp [this]
              | null =>
                  exact absurd h (by
                    rw [show zparse (ZodSchema.zarray s' maxI) (some Json.null) = none from rfl]
                    simp)
              | bool b =>
                  exact absurd h (by
                    rw [show zparse (ZodSchema.zarray s' maxI) (some (Json.bool b)) = none from rfl]
                    simp)
              | num m0 =>
                  exact absurd h (by
                    rw [show zparse (ZodSchema.zarray s' maxI) (some (Json.num m0)) = none from rfl]
                    simp)
              | str s0 =>
                  exact absurd h (by
                    rw [show zparse (ZodSchema.zarray s' maxI) (some (Json.str s0)) = none from rfl]
                    simp)
              | obj kvs =>
                  exact absurd h (by
                    rw [show zparse (ZodSchema.zarray s' maxI) (some (Json.obj kvs)) = none from rfl]
                    simp)
          | zobject sh pass =>
              simp only [zsizeS] at hs
              have hwf' := hwf
              simp only [zwfS, Bool.and_eq_true] at hwf'
              obtain ⟨hnd, hwsh⟩ := hwf'
              cases v with
              | obj kvs =>
                  rw [zparse_zobject_red] at h
                  cases hx : zparseShape sh kvs with
                  | none => rw [hx] at h; cases h
                  | some processed =>
                      rw [hx] at h
                      have hkey : ∀ p ∈ shapeEntries sh,
                          ∃ r0, zparse p.2 (lookupJ kvs p.1) = some r0 ∧
                            lookupJ processed p.1 = r0 :=
                        zparseShape_entry_out sh kvs processed hnd hx
                      have hreacc : ∀ (kvs2 : JsonObj),
                          (∀ p ∈ shapeEntries sh, lookupJ kvs2 p.1 = lookupJ processed p.1) →
                          (zparseShape sh kvs2).isSome = true := by
                        intro kvs2 hagree
                        apply zparseShape_of_entries
                        intro p hp
                        obtain ⟨r0, hr0, hl0⟩ := hkey p hp
                        rw [hagree p hp, hl0]
                        exact ih p.2 (by have := shapeEntries_size sh p hp; omega)
                          (zwfShape_entries sh p hwsh hp) (lookupJ kvs p.1) r0 hr0
                      cases pass with
                      | false =>
                          simp only [if_false] at h
                          cases h
                          rw [zparse_zobject_red]
                          cases hy : zparseShape sh processed with
                          | none =>
                              have := hreacc processed (fun _ _ => rfl)
                              rw [hy] at this
                              simp at this
                          | some pr2 => rfl
                      | true =>
                          simp only [if_true] at h
                          cases h
                          rw [zparse_zobject_red]
                          have hagree : ∀ p ∈ shapeEntries sh,
                              lookupJ (objAppend processed (objWithoutKeys kvs sh)) p.1
                                = lookupJ processed p.1 := by
                            intro p hp
                            rw [lookupJ_objAppend]
                            cases hlp : lookupJ processed p.1 with
                            | some v0 => rfl
                            | none =>
                                exact objWithoutKeys_no_shape_key kvs sh p.1
                                  (shapeEntries_hasKey sh p hp)
                          cases hy : zparseShape sh (objAppend processed (objWithoutKeys kvs sh)) with
                          | none =>
                              have := hreacc _ hagree
                              rw [hy] at this
                              simp at this
                          | some pr2 => rfl
              | null =>
                  exact absurd h (by
                    rw [show zparse (ZodSchema.zobject sh pass) (some Json.null) = none from rfl]
                    simp)
              | bool b =>
                  exact absurd h (by
                    rw [show zparse (ZodSchema.zobject sh pass) (some (Json.bool b)) = none from rfl]
                    simp)
              | num m0 =>
                  exact absurd h (by
                    rw [show zparse (ZodSchema.zobject sh pass) (some (Json.num m0)) = none from rfl]
                    simp)
              | str s0 =>
                  exact absurd h (by
                    rw [show zparse (ZodSchema.zobject sh pass) (some (Json.str s0)) = none from rfl]
                    simp)
              | arr l =>
                  exact absurd h (by
                    rw [show zparse (ZodSchema.zobject sh pass) (some (Json.arr l)) = none from rfl]
                    simp)
          | zunion l =>
              simp only [zsizeS] at hs
              simp only [zwfS] at hwf
              have h' : zparseUnion l (some v) = some (some w) := h
              obtain ⟨s', hs', hp'⟩ := zparseUnion_origin l (some v) (some w) h'
              have hsz := zodListMem_size l s' hs'
              have hi := ih s' (by omega) (zwfList_mem l s' hwf hs') (some v) (some w) hp'
              exact zparseUnion_of_mem l (some w) s' hs' hi

theorem shapeSet_hasKey : ∀ (sh : ZodShape) (key k : String) (s : ZodSchema),
    shapeHasKey (shapeSet sh key s) k = (shapeHasKey sh k || key = k)
  | ZodShape.nil, key, k, s => by
      simp [shapeSet, shapeHasKey]
  | ZodShape.cons k0 v0 tl, key, k, s => by
      by_cases h : k0 = key
      · subst h
        simp only [shapeSet, if_pos rfl, shapeHasKey]
        by_cases h2 : (k0 = k)
        · simp [h2]
        · simp [h2]
      · simp only [shapeSet, if_neg h, shapeHasKey, shapeSet_hasKey tl key k s]
        by_cases h2 : (k0 = k)
        · simp [h2]
        · simp [h2, Bool.or_assoc]

theorem shapeSet_nodup : ∀ (sh : ZodShape) (key : String) (s : ZodSchema),
    shapeKeysNodup sh = true → shapeKeysNodup (shapeSet sh key s) = true
  | ZodShape.nil, key, s, _ => by
      simp [shapeSet, shapeKeysNodup, shapeHasKey]
  | ZodShape.cons k0 v0 tl, key, s, h => by
      simp only [shapeKeysNodup, Bool.and_eq_true] at h
      by_cases hk : k0 = key
      · subst hk
        simp only [shapeSet, if_pos rfl, shapeKeysNodup, Bool.and_eq_true]
        exact h
      · simp only [shapeSet, if_neg hk, shapeKeysNodup, Bool.and_eq_true]
        refine ⟨?_, shapeSet_nodup tl key s h.2⟩
        rw [shapeSet_hasKey]
        simp only [Bool.not_eq_true']
        simp only [Bool.not_eq_true'] at h
        have : (decide (key = k0)) = false := by
          simp
          intro hc
          exact hk hc.symm
        rw [h.1, this]
        rfl

theorem shapeSet_wf : ∀ (sh : ZodShape) (key : String) (s : ZodSchema),
    zwfShape sh = true → zwfS s = true → zwfShape (shapeSet sh key s) = true
  | ZodShape.nil, key, s, _, hs => by
      simp [shapeSet, zwfShape, hs]
  | ZodShape.cons k0 v0 tl, key, s, h, hs => by
      simp only [zwfShape, Bool.and_eq_true] at h
      by_cases hk : k0 = key
      · subst hk
        simp only [shapeSet, if_pos rfl, zwfShape, Bool.and_eq_true]
        exact ⟨hs, h.2⟩
      · simp only [shapeSet, if_neg hk, zwfShape, Bool.and_eq_true]
        exact ⟨h.1, shapeSet_wf tl key s h.2 hs⟩

theorem zwfS_ite (c : Prop) [Decidable c] (a b : ZodSchema) :
    zwfS (if c then a else b) = if c then zwfS a else zwfS b := by
  split <;> rfl

theorem zwf_metadataZ : zwfS metadataZ = true := by decide

theorem zwf_all : ∀ (n : Nat),
    (∀ (f : ContentstackField) (o : SchemaOptions), fsizeF f ≤ n →
      zwfS (fieldToZod f o) = true) ∧
    (∀ (fl : FieldList) (o : SchemaOptions) (acc : ZodShape), fsizeFL fl ≤ n →
      shapeKeysNodup acc = true → zwfShape acc = true →
      shapeKeysNodup (shapeOfFields acc fl o) = true ∧
      zwfShape (shapeOfFields acc fl o) = true) ∧
    (∀ (bl : BlockList) (o : SchemaOptions), fsizeBL bl ≤ n →
      zwfList (blocksToZodList bl o) = true) ∧
    (∀ (b : ContentstackBlock) (o : SchemaOptions), fsizeB b ≤ n →
      zwfS (blockToZod b o) = true) := by
  intro n
  induction n with
  | zero =>
      refine ⟨?_, ?_, ?_, ?_⟩
      · intro f o hsz
        cases f
        simp [fsizeF] at hsz
      · intro fl o acc hsz hnd hwf
        cases fl with
        | nil => exact ⟨hnd, hwf⟩
        | cons f tl => simp [fsizeFL] at hsz
      · intro bl o hsz
        cases bl with
        | nil => rfl
        | cons b tl => cases b; simp [fsizeBL, fsizeB] at hsz
      · intro b o hsz
        cases b
        simp [fsizeB] at hsz
  | succ n ih =>
      obtain ⟨ihF, ihFL, ihBL, ihB⟩ := ih
      refine ⟨?_, ?_, ?_, ?_⟩
      · intro f o hsz
        cases f with
        | mk u dt dn mand mult enumC schemaF blocksF fm fmt sd ed maxI =>
        simp only [fsizeF] at hsz
        have hsF : fsizeFL schemaF ≤ n := by omega
        have hsB : fsizeBL blocksF ≤ n := by omega
        simp only [fieldToZod]
        rw [zwfS_ite]
        simp only [zwfS]
        rw [ite_self]
        rw [zwfS_ite]
        simp only [zwfS]
        rw [ite_self]
        split
        · -- text
          rw [zwfS_ite]
          split
          · rfl
          · split
            · rfl
            · split
              · split <;> rfl
              · rfl
        · rfl
        · rfl
        · -- isodate
          rw [zwfS_ite]
          split <;> rfl
        · -- json
          rw [zwfS_ite]
          split <;> decide
        · -- file
          rw [zwfS_ite]
          split <;> decide
        · decide
        · decide
        · decide
        · decide
        · -- group
          have hsh := ihFL schemaF o ZodShape.nil hsF rfl rfl
          have hshSet :
              shapeKeysNodup (shapeSet (shapeOfFields ZodShape.nil schemaF o)
                  "_metadata" metadataZ) = true ∧
              zwfShape (shapeSet (shapeOfFields ZodShape.nil schemaF o)
                  "_metadata" metadataZ) = true :=
            ⟨shapeSet_nodup _ _ _ hsh.1, shapeSet_wf _ _ _ hsh.2 zwf_metadataZ⟩
          cases mult with
          | false =>
              simp only [Bool.false_eq_true, if_false]
              simp [zwfS, hsh.1, hsh.2]
          | true =>
              simp only [if_true]
              cases maxI with
              | none => simp [zwfS, hshSet.1, hshSet.2]
              | some m =>
                  by_cases hm : 0 < m
                  · simp only [if_pos hm]
                    simp [zwfS, hshSet.1, hshSet.2]
                  · simp only [if_neg hm]
                    simp [zwfS, hshSet.1, hshSet.2]
        · -- blocks
          have hbl := ihBL blocksF o hsB
          split
          · rfl
          · next b heq =>
              rw [heq] at hbl
              simp only [zwfList, Bool.and_eq_true] at hbl
              show zwfS b = true
              exact hbl.1
          · show zwfList (blocksToZodList blocksF o) = true
            exact hbl
        · rfl
      · intro fl o acc hsz hnd hwf
        cases fl with
        | nil => exact ⟨hnd, hwf⟩
        | cons f tl =>
            simp only [fsizeFL] at hsz
            have h1 : fsizeF f ≤ n := by omega
            have h2 : fsizeFL tl ≤ n := by omega
            have hf := ihF f o h1
            exact ihFL tl o (shapeSet acc f.uid (fieldToZod f o)) h2
              (shapeSet_nodup _ _ _ hnd) (shapeSet_wf _ _ _ hwf hf)
      · intro bl o hsz
        cases bl with
        | nil => rfl
        | cons b tl =>
            simp only [fsizeBL] at hsz
            have h1 : fsizeB b ≤ n := by omega
            have h2 : fsizeBL tl ≤ n := by omega
            simp only [blocksToZodList, zwfList, Bool.and_eq_true]
            exact ⟨ihB b o h1, ihBL tl o h2⟩
      · intro b o hsz
        cases b with
        | mk buid btitle brefTo bschema =>
        simp only [fsizeB] at hsz
        have h1 : fsizeFL bschema ≤ n := by omega
        have hsh := ihFL bschema o ZodShape.nil h1 rfl rfl
        simp only [blockToZod]
        split
        · simp [zwfS, zwfShape, shapeKeysNodup, shapeHasKey]
        · have hSet :
              shapeKeysNodup (shapeSet (shapeOfFields ZodShape.nil bschema o)
                  "_metadata" metadataZ) = true ∧
              zwfShape (shapeSet (shapeOfFields ZodShape.nil bschema o)
                  "_metadata" metadataZ) = true :=
            ⟨shapeSet_nodup _ _ _ hsh.1, shapeSet_wf _ _ _ hsh.2 zwf_metadataZ⟩
          simp [zwfS, zwfShape, shapeKeysNodup, shapeHasKey, hSet.1, hSet.2]

theorem zparseShape_keys : ∀ (sh : ZodShape) (kvs out : JsonObj),
    zparseShape sh kvs = some out →
    ∀ k ∈ out.keys, shapeHasKey sh k = true
  | ZodShape.nil, kvs, out, h, k, hk => by
      cases h
      simp [JsonObj.keys] at hk
  | ZodShape.cons k0 s tl, kvs, out, h, k, hk => by
      cases hx : zparse s (lookupJ kvs k0) with
      | none => rw [zparseShape, hx] at h; cases h
      | some r =>
          cases hy : zparseShape tl kvs with
          | none => rw [zparseShape, hx, hy] at h; cases h
          | some rest =>
              rw [zparseShape, hx, hy] at h
              cases r with
              | none =>
                  cases h
                  have := zparseShape_keys tl kvs rest hy k hk
                  simp [shapeHasKey, this]
              | some w =>
                  cases h
                  simp only [JsonObj.keys, List.mem_cons] at hk
                  rcases hk with rfl | hk
                  · simp [shapeHasKey]
                  · have := zparseShape_keys tl kvs rest hy k hk
                    simp [shapeHasKey, this]

theorem shapeOfFields_hasKey : ∀ (fl : FieldList) (o : SchemaOptions) (acc : ZodShape)
    (k : String),
    shapeHasKey (shapeOfFields acc fl o) k
      = (shapeHasKey acc k || (FieldList.uids fl).contains k)
  | FieldList.nil, o, acc, k => by
      simp [shapeOfFields, FieldList.uids]
  | FieldList.cons f tl, o, acc, k => by
      rw [shapeOfFields, shapeOfFields_hasKey tl o _ k, shapeSet_hasKey]
      simp only [FieldList.uids, List.contains_cons]
      by_cases h : f.uid = k
      · simp [h]
      · have : (k == f.uid) = false := by
          simp
          intro hc
          exact h hc.symm
        simp [h, this]

theorem zwf_contentTypeToZod (ct : ContentstackContentType) (o : SchemaOptions) :
    zwfS (contentTypeToZod ct o) = true := by
  have h := (zwf_all (fsizeFL ct.schema)).2.1 ct.schema o ZodShape.nil (le_refl _) rfl rfl
  show (shapeKeysNodup (shapeOfFields ZodShape.nil ct.schema o) &&
    zwfShape (shapeOfFields ZodShape.nil ct.schema o)) = true
  simp [h.1, h.2]

/-- C3 (counterexample): the claim says undeclared keys are removed *at every
nesting level*. On `ctC3`/`eC3` validation succeeds and strips the undeclared
top-level key `junk`, but the undeclared key `extra` nested inside the
passthrough group object `info` is kept in the success value, so the success
value is not `E` restricted to the declared fields at every nesting level. -/
theorem claim_C3_counterexample :
    validateEntry ctC3 eC3
      = some (some (jO [("info", jO [("name", Json.str "x"), ("extra", Json.num 1)])])) ∧
    (FieldList.uids (fL [mkPrim "name" "text" none true])).contains "extra" = false ∧
    jsonHasKey (jO [("name", Json.str "x"), ("extra", Json.num 1)]) "extra" = true ∧
    jsonHasKey eC3 "junk" = true := by
  refine ⟨by rfl, by decide, by rfl, by rfl⟩

/-- C3 (amended): for every content type and entry accepted by the full-mode
validator, the success value is an object whose top-level keys are all
declared field uids (undeclared keys are removed at the top level only —
nested group objects pass unknown members through), and re-validating the
success value succeeds again (idempotence). -/
theorem claim_C3_amended (ct : ContentstackContentType) (e : Json) (r : Option Json)
    (h : validateEntry ct e = some r) :
    ∃ out : JsonObj, r = some (Json.obj out) ∧
      (∀ k ∈ out.keys, (FieldList.uids ct.schema).contains k = true) ∧
      (validateEntry ct (Json.obj out)).isSome = true := by
  have hs : validateEntry ct e
      = zparse (ZodSchema.zobject (shapeOfFields ZodShape.nil ct.schema defaultSchemaOpts) false)
          (some e) := rfl
  rw [hs] at h
  obtain ⟨w, rfl⟩ := zparse_some_out _ _ _ h
  cases e with
  | obj kvs =>
      rw [zparse_zobject_red] at h
      cases hx : zparseShape (shapeOfFields ZodShape.nil ct.schema defaultSchemaOpts) kvs with
      | none => rw [hx] at h; cases h
      | some processed =>
          rw [hx] at h
          simp only [if_false] at h
          cases h
          refine ⟨processed, rfl, ?_, ?_⟩
          · intro k hk
            have hsk := zparseShape_keys _ kvs processed hx k hk
            rw [shapeOfFields_hasKey] at hsk
            simpa [shapeHasKey] using hsk
          · have hwf := zwf_contentTypeToZod ct defaultSchemaOpts
            have := zparse_reaccepts_aux
              (zsizeS (contentTypeToZod ct defaultSchemaOpts))
              (contentTypeToZod ct defaultSchemaOpts) (le_refl _) hwf
              (some (Json.obj kvs)) (some (Json.obj processed))
              (by
                show zparse (ZodSchema.zobject
                  (shapeOfFields ZodShape.nil ct.schema defaultSchemaOpts) false)
                  (some (Json.obj kvs)) = some (some (Json.obj processed))
                rw [zparse_zobject_red, hx]
                simp)
            exact this
  | null =>
      exact absurd h (by
        rw [show zparse (ZodSchema.zobject
          (shapeOfFields ZodShape.nil ct.schema defaultSchemaOpts) false)
          (some Json.null) = none from rfl]
        simp)
  | bool b =>
      exact absurd h (by
        rw [show zparse (ZodSchema.zobject
          (shapeOfFields ZodShape.nil ct.schema defaultSchemaOpts) false)
          (some (Json.bool b)) = none from rfl]
        simp)
  | num m0 =>
      exact absurd h (by
        rw [show zparse (ZodSchema.zobject
          (shapeOfFields ZodShape.nil ct.schema defaultSchemaOpts) false)
          (some (Json.num m0)) = none from rfl]
        simp)
  | str s0 =>
      exact absurd h (by
        rw [show zparse (ZodSchema.zobject
          (shapeOfFields ZodShape.nil ct.schema defaultSchemaOpts) false)
          (some (Json.str s0)) = none from rfl]
        simp)
  | arr l =>
      exact absurd h (by
        rw [show zparse (ZodSchema.zobject
          (shapeOfFields ZodShape.nil ct.schema defaultSchemaOpts) false)
          (some (Json.arr l)) = none from rfl]
        simp)

/-- C3 (witness): `claim_C3_amended` applied to `ctC3`/`eC3`, whose accepted
value keeps only the declared top-level key `info`. -/
theorem claim_C3_witness :
    ∃ out : JsonObj,
      (some (jO [("info", jO [("name", Json.str "x"), ("extra", Json.num 1)])]) : Option Json)
        = some (Json.obj out) ∧
      (∀ k ∈ out.keys, (FieldList.uids ctC3.schema).contains k = true) ∧
      (validateEntry ctC3 (Json.obj out)).isSome = true :=
  claim_C3_amended ctC3 eC3
    (some (jO [("info", jO [("name", Json.str "x"), ("extra", Json.num 1)])])) (by rfl)
